import Mathlib

/-!
Verification development for the synchro repository (fork/upstream
synchronization tool).  The Go sources are shallowly embedded: strings are
`List Char`, the fixed regular expressions used by the merge-conflict
classifier and by the pull-request reference extractor are embedded as
literal/character-class pattern lists with Go (RE2 leftmost, greedy)
matching semantics, and effectful git / GitHub API calls are modelled by
explicit environments of oracles plus a trace of issued git commands.
-/

set_option maxRecDepth 100000

namespace Synchro

/-- Strings of the embedded program, as lists of characters. -/
abbrev Str : Type := List Char

/-- Coercion from Lean string literals to embedded strings. -/
def strL (s : String) : Str := s.data

/-- Bool test that `p` is an initial segment of `s` (Go `strings.HasPrefix`). -/
def strStarts : Str → Str → Bool
  | [], _ => true
  | _ :: _, [] => false
  | a :: p, b :: s => a = b && strStarts p s

/-- Bool test that `p` is a final segment of `s` (Go `strings.HasSuffix`). -/
def strEnds (p s : Str) : Bool := strStarts p.reverse s.reverse

/-- Go `strings.Contains`: `needle` occurs as a contiguous substring. -/
def containsSubstr (needle : Str) : Str → Bool
  | [] => needle.isEmpty
  | c :: rest => strStarts needle (c :: rest) || containsSubstr needle rest

/-- Fuelled worker for `countSubstr` (non-overlapping occurrence count). -/
def countSubstrFuel (needle : Str) : Nat → Str → Nat
  | 0, _ => 0
  | _ + 1, [] => 0
  | fuel + 1, c :: rest =>
    if strStarts needle (c :: rest) then
      1 + countSubstrFuel needle fuel ((c :: rest).drop needle.length)
    else
      countSubstrFuel needle fuel rest

/-- Go `strings.Count`: number of non-overlapping occurrences of `needle`. -/
def countSubstr (needle s : Str) : Nat := countSubstrFuel needle s.length s

/-- Split a string on a separator character (Go `strings.Split`). -/
def splitOnChar (sep : Char) (s : Str) : List Str :=
  s.foldr
    (fun c acc =>
      match acc with
      | [] => [[c]]
      | h :: t => if c = sep then [] :: h :: t else (c :: h) :: t)
    [[]]

/-- Lines as produced by Go's `bufio.Scanner`: split on newline, without a
trailing empty line when the text ends in a newline, and no lines at all for
empty text. -/
def goLines (s : Str) : List Str :=
  if s = [] then []
  else if s.getLast? = some '\n' then (splitOnChar '\n' s).dropLast
  else splitOnChar '\n' s

/-- Numeric value of a decimal digit string. -/
def digitsVal (d : Str) : Nat :=
  d.foldl (fun acc c => acc * 10 + (c.toNat - '0'.toNat)) 0

/-- Largest value accepted by Go's `strconv.Atoi` on a 64-bit platform. -/
def goMaxInt : Nat := 2 ^ 63 - 1

/-- First line of a message: Go `strings.Split(msg, "\n")[0]`. -/
def firstLine (s : Str) : Str := s.takeWhile (· ≠ '\n')

/-- Lower-casing of a string (Go `strings.ToLower`, ASCII fragment). -/
def toLowerStr (s : Str) : Str := s.map Char.toLower

/-! ## Errors

Errors are embedded structurally: each constructor corresponds to one
`fmt.Errorf` (or propagated collaborator failure) in the source and carries
the data interpolated into the Go format string. -/

/-- Error values of the embedded program. -/
inductive Err where
  /-- a failure coming back from a git or GitHub collaborator call -/
  | collab (msg : Str)
  /-- `utils.ErrSeqBreakout`, the distinguished loop-breakout value -/
  | seqBreakout
  /-- `strconv.Atoi` out-of-range failure on the given digit string -/
  | atoiRange (s : Str)
  /-- "local changes must be stashed, committed, or removed" -/
  | localChanges
  /-- "could not check for ... conflicts": classification wrapper -/
  | checkFailed (category : Str) (inner : Err)
  /-- "unexpected regex match when looking for ... merge conflict error" -/
  | regexArity (category : Str)
  /-- "unknown conflicts encountered (... content, ... non-content, ... total)" -/
  | unknownConflicts (content nonContent total : Nat) (out : Str)
  /-- "could not recover from ... conflict: ..." -/
  | recoveryWrap (recType : Str) (inner : Err)
  /-- "content conflict can't be solved automatically for file ..." -/
  | contentUnsolvable (file : Str)
  /-- "can't parse content conflict line: ..." -/
  | parseContentLine (line : Str)
  /-- "could not parse for content conflicts: ..." -/
  | parseContentWrap (inner : Err)
  /-- "found N unmerged files but expected M: ..." -/
  | unmergedMismatch (found expected : Nat) (files : List Str)
  /-- "could not recover from content conflict: ..." (final staging failure) -/
  | stageFailed (inner : Err)
  /-- "pull requests body contains multiple upstream repo refs and may be
  ambiguous: https://github.com/fork/pull/N" -/
  | ambiguousPRBody (forkOrg forkRepo : Str) (number : Nat)
  /-- "commit message contains multiple upstream repo refs and may be
  ambiguous: https://github.com/fork/commit/sha" -/
  | ambiguousCommitMsg (forkOrg forkRepo sha : Str)
  /-- "commit comment contains multiple upstream repo refs and may be
  ambiguous: https://github.com/fork/commit/sha" -/
  | ambiguousComment (forkOrg forkRepo sha : Str)
  /-- "unresolved merge conflicts detected" -/
  | unresolvedConflicts
  /-- "merge conflict on commit: sha" -/
  | conflictOnCommit (sha : Str)
  /-- "can't find any remotes in current repo" -/
  | noRemotes
  /-- "can't find `origin` remote in current repo" -/
  | noOrigin
  /-- "current repo `origin` remote does not match the fork's one: url" -/
  | originMismatch (url : Str)
  /-- `multierror.Append` of two errors (longer chains nest to the left) -/
  | multi (e1 e2 : Err)
  /-- `multierror.Append` starting from a nil error -/
  | multiOne (e : Err)
  deriving DecidableEq, Repr

/-- Decidable equality for `Except` results (used to evaluate theorems on
concrete inputs). -/
instance {e a : Type} [DecidableEq e] [DecidableEq a] : DecidableEq (Except e a) :=
  fun x y =>
    match x, y with
    | .ok v, .ok w =>
      if h : v = w then .isTrue (by rw [h])
      else .isFalse (fun hh => h (Except.ok.inj hh))
    | .error v, .error w =>
      if h : v = w then .isTrue (by rw [h])
      else .isFalse (fun hh => h (Except.error.inj hh))
    | .ok _, .error _ => .isFalse (fun hh => Except.noConfusion hh)
    | .error _, .ok _ => .isFalse (fun hh => Except.noConfusion hh)

/-! ## Pattern matching engine

The Go sources compile a handful of fixed regular expressions.  Every one of
them is a sequence of literals, greedy character-class runs `[...]+`, a
single-character wildcard `.` (the unescaped dot of `github.com`), capture
groups over such runs, and a final-or-medial `\(.*\)` component.  Character
classes never contain the characters that follow them, so Go's greedy
leftmost-first matching coincides with maximal-munch scanning; `.` and the
classes never match a newline, so no match crosses a line boundary.  The
`\(.*\)` component is greedy: it extends to the farthest closing parenthesis
(before the next newline) that lets the remainder of the pattern match. -/

/-- One component of an embedded regular expression. -/
inductive PatPiece where
  /-- a literal string (no newline inside) -/
  | lit (s : Str)
  /-- a capturing group `([class]+)`: maximal nonempty run of `cls` chars -/
  | cap (cls : Char → Bool)
  /-- a non-capturing `[class]+`: maximal nonempty run of `cls` chars -/
  | run (cls : Char → Bool)
  /-- the unescaped `.` wildcard: any single character except newline -/
  | anyChar
  /-- the component `\(.*\)`: a literal `(`, then a greedy run of
  non-newline characters, then a literal `)` -/
  | parenRest

/-- Try to match the pattern at the start of `s`.  Returns the list of
captured groups and the length of the overall match. -/
def matchPieces : List PatPiece → Str → Option (List Str × Nat)
  | [], _ => some ([], 0)
  | .lit l :: ps, s =>
    if strStarts l s then
      (matchPieces ps (s.drop l.length)).map (fun r => (r.1, r.2 + l.length))
    else none
  | .cap cls :: ps, s =>
    let g := s.takeWhile cls
    if g = [] then none
    else (matchPieces ps (s.drop g.length)).map (fun r => (g :: r.1, r.2 + g.length))
  | .run cls :: ps, s =>
    let g := s.takeWhile cls
    if g = [] then none
    else (matchPieces ps (s.drop g.length)).map (fun r => (r.1, r.2 + g.length))
  | .anyChar :: ps, s =>
    match s with
    | [] => none
    | c :: rest =>
      if c = '\n' then none
      else (matchPieces ps rest).map (fun r => (r.1, r.2 + 1))
  | .parenRest :: ps, s =>
    match s with
    | '(' :: s2 =>
      let limit := s2.findIdx (· = '\n')
      let cands := ((List.range limit).filter (fun j => s2.getD j ' ' = ')')).reverse
      cands.findSome? (fun j =>
        (matchPieces ps (s2.drop (j + 1))).map
          (fun r => (r.1, r.2 + j + 2)))
    | _ => none

/-- Fuelled worker for `findAllSub`: scan every position left to right,
emitting each leftmost match and resuming after its end (Go
`FindAllStringSubmatch` with a nonempty pattern). -/
def findAllSubFuel (pat : List PatPiece) : Nat → Str → List (List Str)
  | 0, _ => []
  | _ + 1, [] => []
  | fuel + 1, c :: rest =>
    match matchPieces pat (c :: rest) with
    | some (caps, n) => caps :: findAllSubFuel pat fuel ((c :: rest).drop (max n 1))
    | none => findAllSubFuel pat fuel rest

/-- All (leftmost, non-overlapping) matches of a pattern in a text, as lists
of captured groups, in order of appearance. -/
def findAllSub (pat : List PatPiece) (s : Str) : List (List Str) :=
  findAllSubFuel pat s.length s

/-! ## Merge-conflict classification (pkg/sync conflict recovery)

The five fixed conflict regexes of the recovery engine. The path character
class is `[a-zA-Z0-9\-_\.\\\/]` and the commit-hash class is `[a-fA-F0-9]`. -/

/-- The character class used for file paths in the conflict regexes. -/
def pathChar (c : Char) : Bool :=
  c.isAlphanum || c = '-' || c = '_' || c = '.' || c = '\\' || c = '/'

/-- The character class used for commit hashes in the conflict regexes. -/
def hexChar (c : Char) : Bool :=
  c.isDigit || ('a' ≤ c && c ≤ 'f') || ('A' ≤ c && c ≤ 'F')

/-- `CONFLICT \(modify/delete\): (path) deleted in HEAD and modified in
[hex]+ \(.*\)` -/
def rgxConflictDeleteModify : List PatPiece :=
  [.lit (strL "CONFLICT (modify/delete): "), .cap pathChar,
   .lit (strL " deleted in HEAD and modified in "), .run hexChar,
   .lit (strL " "), .parenRest]

/-- `CONFLICT \(rename/delete\): (path) renamed to (path) in [hex]+ \(.*\),
but deleted in HEAD` -/
def rgxConflictDeleteRename : List PatPiece :=
  [.lit (strL "CONFLICT (rename/delete): "), .cap pathChar,
   .lit (strL " renamed to "), .cap pathChar,
   .lit (strL " in "), .run hexChar, .lit (strL " "), .parenRest,
   .lit (strL ", but deleted in HEAD")]

/-- `CONFLICT \(rename/rename\): (path) renamed to (path) in HEAD and to
(path) in [hex]+ \(.*\)` -/
def rgxConflictRenameRename : List PatPiece :=
  [.lit (strL "CONFLICT (rename/rename): "), .cap pathChar,
   .lit (strL " renamed to "), .cap pathChar,
   .lit (strL " in HEAD and to "), .cap pathChar,
   .lit (strL " in "), .run hexChar, .lit (strL " "), .parenRest]

/-- `CONFLICT \(rename/delete\): (path) renamed to (path) in HEAD, but
deleted in [hex]+ \(.*\)` -/
def rgxConflictRenameDelete : List PatPiece :=
  [.lit (strL "CONFLICT (rename/delete): "), .cap pathChar,
   .lit (strL " renamed to "), .cap pathChar,
   .lit (strL " in HEAD, but deleted in "), .run hexChar,
   .lit (strL " "), .parenRest]

/-- `CONFLICT \(modify/delete\): (path) deleted in [hex]+ \(.*\) and
modified in HEAD` -/
def rgxConflictModifyDelete : List PatPiece :=
  [.lit (strL "CONFLICT (modify/delete): "), .cap pathChar,
   .lit (strL " deleted in "), .run hexChar, .lit (strL " "), .parenRest,
   .lit (strL " and modified in HEAD")]

/-- `countMergeConflicts`: total number of conflict markers in the report. -/
def countMergeConflicts (s : Str) : Nat := countSubstr (strL "CONFLICT (") s

/-- `countMergeContentConflicts`: number of content-conflict markers. -/
def countMergeContentConflicts (s : Str) : Nat :=
  countSubstr (strL "CONFLICT (content)") s

/-- `deleteModifyConflictInfo`: a file deleted upstream, modified in fork. -/
structure deleteModifyConflictInfo where
  UpstreamDeleted : Str
  deriving DecidableEq, Repr

/-- `deleteRenameConflictInfo`: a file deleted upstream, renamed in fork. -/
structure deleteRenameConflictInfo where
  UpstreamDeleted : Str
  ForkRenamed : Str
  deriving DecidableEq, Repr

/-- `renameRenameConflictInfo`: a file renamed on both sides. -/
structure renameRenameConflictInfo where
  UpstreamOriginal : Str
  UpstreamRenamed : Str
  ForkRenamed : Str
  deriving DecidableEq, Repr

/-- `renameDeleteConflictInfo`: a file renamed upstream, deleted in fork. -/
structure renameDeleteConflictInfo where
  UpstreamOriginal : Str
  UpstreamRenamed : Str
  deriving DecidableEq, Repr

/-- `modifyDeleteConflictInfo`: a file modified upstream, deleted in fork. -/
structure modifyDeleteConflictInfo where
  UpstreamModified : Str
  deriving DecidableEq, Repr

/-- `contentConflictInfo`: overlapping textual edits in one file. -/
structure contentConflictInfo where
  Modified : Str
  deriving DecidableEq, Repr

/-- The closed set of conflict variants (the Go `conflictInfo` interface). -/
inductive ConflictItem where
  | deleteModify (info : deleteModifyConflictInfo)
  | deleteRename (info : deleteRenameConflictInfo)
  | renameRename (info : renameRenameConflictInfo)
  | renameDelete (info : renameDeleteConflictInfo)
  | modifyDelete (info : modifyDeleteConflictInfo)
  | content (info : contentConflictInfo)
  deriving DecidableEq, Repr

/-- Left-to-right effectful map, aborting at the first error. -/
def mapExcept (f : α → Except Err β) : List α → Except Err (List β)
  | [] => .ok []
  | a :: rest => do
    let b ← f a
    let bs ← mapExcept f rest
    .ok (b :: bs)

/-- `getDeleteModifyConflictInfos`. -/
def getDeleteModifyConflictInfos (s : Str) :
    Except Err (List deleteModifyConflictInfo) :=
  mapExcept
    (fun m =>
      match m with
      | [a] => .ok ⟨a⟩
      | _ => .error (.regexArity (strL "delete/modify")))
    (findAllSub rgxConflictDeleteModify s)

/-- `getDeleteRenameConflictInfos`. -/
def getDeleteRenameConflictInfos (s : Str) :
    Except Err (List deleteRenameConflictInfo) :=
  mapExcept
    (fun m =>
      match m with
      | [a, b] => .ok ⟨a, b⟩
      | _ => .error (.regexArity (strL "delete/rename")))
    (findAllSub rgxConflictDeleteRename s)

/-- `getRenameRenameConflictInfos`. -/
def getRenameRenameConflictInfos (s : Str) :
    Except Err (List renameRenameConflictInfo) :=
  mapExcept
    (fun m =>
      match m with
      | [a, b, c] => .ok ⟨a, b, c⟩
      | _ => .error (.regexArity (strL "rename/rename")))
    (findAllSub rgxConflictRenameRename s)

/-- `getRenameDeleteConflictInfos`. -/
def getRenameDeleteConflictInfos (s : Str) :
    Except Err (List renameDeleteConflictInfo) :=
  mapExcept
    (fun m =>
      match m with
      | [a, b] => .ok ⟨a, b⟩
      | _ => .error (.regexArity (strL "rename/delete")))
    (findAllSub rgxConflictRenameDelete s)

/-- `getModifyDeleteConflictInfos`. -/
def getModifyDeleteConflictInfos (s : Str) :
    Except Err (List modifyDeleteConflictInfo) :=
  mapExcept
    (fun m =>
      match m with
      | [a] => .ok ⟨a⟩
      | _ => .error (.regexArity (strL "modify/delete")))
    (findAllSub rgxConflictModifyDelete s)

/-- `getContentConflictInfos`: parse `git diff --check` output.  Each line is
`file:line: message`; the file name is the first `:`-separated token, and
files are collected once each, in order of first appearance. -/
def getContentConflictInfosLoop :
    List Str → List Str → Except Err (List contentConflictInfo)
  | _, [] => .ok []
  | seen, line :: rest =>
    let tokens := splitOnChar ':' line
    if tokens.length < 2 then .error (.parseContentLine line)
    else
      let fileName := tokens.headD []
      if seen.contains fileName then getContentConflictInfosLoop seen rest
      else do
        pure (⟨fileName⟩ :: (← getContentConflictInfosLoop (fileName :: seen) rest))

/-- `getContentConflictInfos`. -/
def getContentConflictInfos (s : Str) : Except Err (List contentConflictInfo) :=
  getContentConflictInfosLoop [] (goLines s)

/-! ## Commit markers and commit records -/

/-- The three well-known commit markers. -/
inductive CommitMarker where
  | ignore
  | conflictSkip
  | conflictApply
  deriving DecidableEq, Repr

/-- The literal string of each marker (`CommitMarker.String()`). -/
def CommitMarker.str : CommitMarker → Str
  | .ignore => strL "SYNC_IGNORE"
  | .conflictSkip => strL "SYNC_CONFLICT_SKIP"
  | .conflictApply => strL "SYNC_CONFLICT_APPLY"

/-- `AllCommitMarkers`. -/
def AllCommitMarkers : List CommitMarker :=
  [.ignore, .conflictSkip, .conflictApply]

/-- A pull request as seen by the scan (`github.PullRequest` projection:
base-repository full name, number, body, merged timestamp, state). -/
structure PullRequest where
  baseFullName : Str
  number : Nat
  body : Str
  mergedAt : Option Int
  state : Str
  deriving DecidableEq, Repr

/-- A repository commit (`github.RepositoryCommit` projection). -/
structure RepoCommit where
  sha : Str
  message : Str
  deriving DecidableEq, Repr

/-- `commitInfo` of pkg/sync: a scanned fork commit with its pull requests,
the lazily-filled comment cache (`comments`/`commentsRepo`) and the marker
set (`Markers`, a string-keyed map modelled as a list of marker strings). -/
structure commitInfo where
  Commit : RepoCommit
  PullRequests : List PullRequest := []
  comments : List Str := []
  commentsRepo : Str := []
  Markers : List Str := []
  deriving DecidableEq, Repr

/-- `commitInfo.Message()`. -/
def commitInfo.Message (c : commitInfo) : Str := c.Commit.message

/-- `commitInfo.SHA()`. -/
def commitInfo.SHA (c : commitInfo) : Str := c.Commit.sha

/-- `commitInfo.ShortSHA()`: `c.SHA()[:8]`.  Go string slicing panics when
the string has fewer than 8 bytes; the panic is modelled as `none`. -/
def commitInfo.ShortSHA (c : commitInfo) : Option Str :=
  if 8 ≤ c.SHA.length then some (c.SHA.take 8) else none

/-- `commitInfo.Title()`: first line of the message. -/
def commitInfo.Title (c : commitInfo) : Str := firstLine c.Message

/-- `commitInfo.pullRequestsOfRepo`: the pull requests whose base repository
has full name `org/repo`. -/
def commitInfo.pullRequestsOfRepo (c : commitInfo) (org repo : Str) :
    List PullRequest :=
  c.PullRequests.filter (fun pr => pr.baseFullName = org ++ strL "/" ++ repo)

/-- `commitInfo.HasMarker`.  Modelled from the spec: the accessor body is not
part of the sources at hand (only its call sites and the `Markers` map filled
by `searchCommitMarkers` are); per the spec, "recovery logic consults marker
presence", i.e. membership of the marker's literal string in the record's
marker set. -/
def commitInfo.HasMarker (c : commitInfo) (m : CommitMarker) : Bool :=
  c.Markers.contains m.str

/-- `Request` of pkg/sync. -/
structure Request where
  UpstreamOrg : Str
  UpstreamRepo : Str
  UpstreamHeadRef : Str
  ForkOrg : Str
  ForkRepo : Str
  ForkHeadRef : Str
  OutBranch : Str
  DryRun : Bool
  deriving DecidableEq, Repr

/-! ## Recovery actions

Each `Recover` method issues git commands.  A git command is its argument
list; executing one through the collaborator is modelled by the oracle
`doErr` (the error `git.Do` would return), and each function additionally
returns the trace of commands it issued, in order. -/

/-- A git command, as the argument list passed to `git.Do`. -/
abbrev Cmd : Type := List Str

/-- The environment of collaborator oracles used by conflict recovery. -/
structure RecoveryEnv where
  /-- outcome of `requireWorkInRepoRootDir` (repo-root lookup / chdir) -/
  repoRootErr : Option Err := none
  /-- the error returned by `git.Do args`, if any -/
  doErr : Cmd → Option Err := fun _ => none
  /-- output of `git.DoOutput "diff" "--check"` -/
  diffCheck : Except Err Str := .ok []
  /-- result of `git.ListUnmergedFiles()` -/
  listUnmerged : Except Err (List Str) := .ok []

/-- `wrapRecoveryError`. -/
def wrapRecoveryError (recType : Str) : Option Err → Except Err Unit
  | none => .ok ()
  | some e => .error (.recoveryWrap recType e)

/-- `deleteModifyConflictInfo.Recover`: with the conflict-apply marker keep
and stage the modified file, otherwise (default) delete it, tolerating a
failing removal. -/
def deleteModifyRecover (env : RecoveryEnv) (info : deleteModifyConflictInfo)
    (c : commitInfo) : Except Err Unit × List Cmd :=
  if c.HasMarker .conflictApply then
    (wrapRecoveryError (strL "delete/modify")
       (env.doErr [strL "add", info.UpstreamDeleted]),
     [[strL "add", info.UpstreamDeleted]])
  else
    (.ok (), [[strL "rm", strL "-f", info.UpstreamDeleted]])

/-- `deleteRenameConflictInfo.Recover`: with conflict-apply keep and stage
the renamed file, otherwise (default) delete both paths, tolerating failing
removals. -/
def deleteRenameRecover (env : RecoveryEnv) (info : deleteRenameConflictInfo)
    (c : commitInfo) : Except Err Unit × List Cmd :=
  if c.HasMarker .conflictApply then
    (wrapRecoveryError (strL "delete/rename")
       (env.doErr [strL "add", info.ForkRenamed]),
     [[strL "add", info.ForkRenamed]])
  else
    (.ok (),
     [[strL "rm", strL "-f", info.UpstreamDeleted],
      [strL "rm", strL "-f", info.ForkRenamed]])

/-- `renameRenameConflictInfo.Recover`: with conflict-skip keep the upstream
name (remove the fork's target, stage upstream's); otherwise (default,
conflict-apply behavior) keep the fork's name: remove the fork's rename
target, then `git mv` upstream's rename target onto it. -/
def renameRenameRecover (env : RecoveryEnv) (info : renameRenameConflictInfo)
    (c : commitInfo) : Except Err Unit × List Cmd :=
  if c.HasMarker .conflictSkip then
    (wrapRecoveryError (strL "rename/rename")
       (env.doErr [strL "add", info.UpstreamRenamed]),
     [[strL "rm", strL "-f", info.ForkRenamed],
      [strL "add", info.UpstreamRenamed]])
  else
    (wrapRecoveryError (strL "rename/rename")
       (env.doErr [strL "mv", info.UpstreamRenamed, info.ForkRenamed]),
     [[strL "rm", strL "-f", info.ForkRenamed],
      [strL "mv", info.UpstreamRenamed, info.ForkRenamed]])

/-- `renameDeleteConflictInfo.Recover`: with conflict-skip keep and stage
the renamed file; otherwise (default) delete both paths, tolerating failing
removals. -/
def renameDeleteRecover (env : RecoveryEnv) (info : renameDeleteConflictInfo)
    (c : commitInfo) : Except Err Unit × List Cmd :=
  if c.HasMarker .conflictSkip then
    (wrapRecoveryError (strL "rename/delete")
       (env.doErr [strL "add", info.UpstreamRenamed]),
     [[strL "add", info.UpstreamRenamed]])
  else
    (.ok (),
     [[strL "rm", strL "-f", info.UpstreamOriginal],
      [strL "rm", strL "-f", info.UpstreamRenamed]])

/-- `modifyDeleteConflictInfo.Recover`: with conflict-skip keep and stage
the modified file; otherwise delete it. -/
def modifyDeleteRecover (env : RecoveryEnv) (info : modifyDeleteConflictInfo)
    (c : commitInfo) : Except Err Unit × List Cmd :=
  if c.HasMarker .conflictSkip then
    (wrapRecoveryError (strL "modify/delete")
       (env.doErr [strL "add", info.UpstreamModified]),
     [[strL "add", info.UpstreamModified]])
  else
    (wrapRecoveryError (strL "modify/delete")
       (env.doErr [strL "rm", strL "-f", info.UpstreamModified]),
     [[strL "rm", strL "-f", info.UpstreamModified]])

/-- `contentConflictInfo.Recover`: conflict-skip keeps the upstream side,
conflict-apply keeps the fork side, no marker is an error. -/
def contentRecover (env : RecoveryEnv) (info : contentConflictInfo)
    (c : commitInfo) : Except Err Unit × List Cmd :=
  if c.HasMarker .conflictSkip then
    (wrapRecoveryError (strL "content")
       (env.doErr [strL "checkout", strL "--ours", info.Modified]),
     [[strL "checkout", strL "--ours", info.Modified]])
  else if c.HasMarker .conflictApply then
    (wrapRecoveryError (strL "content")
       (env.doErr [strL "checkout", strL "--theirs", info.Modified]),
     [[strL "checkout", strL "--theirs", info.Modified]])
  else
    (.error (.contentUnsolvable info.Modified), [])

/-- Dynamic dispatch of `conflictInfo.Recover` over the closed variant set. -/
def recoverConflictItem (env : RecoveryEnv) (item : ConflictItem)
    (c : commitInfo) : Except Err Unit × List Cmd :=
  match item with
  | .deleteModify info => deleteModifyRecover env info c
  | .deleteRename info => deleteRenameRecover env info c
  | .renameRename info => renameRenameRecover env info c
  | .renameDelete info => renameDeleteRecover env info c
  | .modifyDelete info => modifyDeleteRecover env info c
  | .content info => contentRecover env info c

/-- Recover from a list of conflicts one by one, aborting at the first
failure; the trace collects the commands issued up to that point. -/
def recoverAll (env : RecoveryEnv) (c : commitInfo) :
    List ConflictItem → Except Err Unit × List Cmd
  | [] => (.ok (), [])
  | item :: rest =>
    let (r, t) := recoverConflictItem env item c
    match r with
    | .error e => (.error e, t)
    | .ok _ =>
      let (r2, t2) := recoverAll env c rest
      (r2, t ++ t2)

/-- The content-conflict phase of `attemptMergeConflictRecovery`: when the
report counted content conflicts, run `git diff --check`; a nonempty output
means conflict markers are still in the tree, so parse it and run each
content conflict's recovery (an unsolvable one aborts with its error, after
printing operator guidance). -/
def contentPhase (env : RecoveryEnv) (c : commitInfo) (numContentConflicts : Nat) :
    Except Err Unit × List Cmd :=
  if 0 < numContentConflicts then
    match env.diffCheck with
    | .error e => (.error (.checkFailed (strL "content") e), [])
    | .ok dOut =>
      if 0 < dOut.length then
        match getContentConflictInfos dOut with
        | .error e => (.error (.parseContentWrap e), [])
        | .ok cc => recoverAll env c (cc.map .content)
      else (.ok (), [])
  else (.ok (), [])

/-- The final re-verification of `attemptMergeConflictRecovery`: the paths
still unmerged must number exactly the content conflicts counted in the
report, and only then is everything staged with `git add -A`. -/
def finalCheckPhase (env : RecoveryEnv) (numContentConflicts : Nat) :
    Except Err Unit × List Cmd :=
  match env.listUnmerged with
  | .error e => (.error e, [])
  | .ok unmerged =>
    if unmerged.length ≠ numContentConflicts then
      (.error (.unmergedMismatch unmerged.length numContentConflicts unmerged), [])
    else
      match env.doErr [strL "add", strL "-A"] with
      | some e => (.error (.stageFailed e), [[strL "add", strL "-A"]])
      | none => (.ok (), [[strL "add", strL "-A"]])

/-- `attemptMergeConflictRecovery` (pkg/sync): classify the conflict report,
fail when unknown conflict shapes remain, recover from the non-content
conflicts, handle content conflicts, then re-verify the unmerged count and
stage everything. -/
def attemptMergeConflictRecovery (env : RecoveryEnv) (out : Str)
    (c : commitInfo) : Except Err Unit × List Cmd :=
  match env.repoRootErr with
  | some e => (.error e, [])
  | none =>
    let numConflicts := countMergeConflicts out
    let numContentConflicts := countMergeContentConflicts out
    match getModifyDeleteConflictInfos out with
    | .error e => (.error (.checkFailed (strL "modify/delete") e), [])
    | .ok md =>
    match getRenameRenameConflictInfos out with
    | .error e => (.error (.checkFailed (strL "rename/rename") e), [])
    | .ok rr =>
    match getRenameDeleteConflictInfos out with
    | .error e => (.error (.checkFailed (strL "rename/delete") e), [])
    | .ok rd =>
    match getDeleteModifyConflictInfos out with
    | .error e => (.error (.checkFailed (strL "delete/modify") e), [])
    | .ok dm =>
    match getDeleteRenameConflictInfos out with
    | .error e => (.error (.checkFailed (strL "delete/rename") e), [])
    | .ok dr =>
    let nonContentConflicts : List ConflictItem :=
      md.map .modifyDelete ++ rr.map .renameRename ++ rd.map .renameDelete ++
        dm.map .deleteModify ++ dr.map .deleteRename
    let unknownConflicts : Int :=
      (numConflicts : Int) - ((nonContentConflicts.length : Int) + (numContentConflicts : Int))
    if numConflicts < nonContentConflicts.length ∨ 0 < unknownConflicts then
      (.error (.unknownConflicts numContentConflicts nonContentConflicts.length
                 numConflicts out), [])
    else
      let (r1, t1) := recoverAll env c nonContentConflicts
      match r1 with
      | .error e => (.error e, t1)
      | .ok _ =>
        let (r2, t2) := contentPhase env c numContentConflicts
        match r2 with
        | .error e => (.error e, t1 ++ t2)
        | .ok _ =>
          let (r3, t3) := finalCheckPhase env numContentConflicts
          (r3, t1 ++ t2 ++ t3)

/-! ## Pull-request reference extraction (scan) -/

/-- The `\d` class of the reference regexes. -/
def digitChar (c : Char) : Bool := c.isDigit

/-- Go `strconv.Atoi` on a (nonempty, all-decimal) digit string: out of
range beyond the maximum 64-bit int. -/
def goAtoi (d : Str) : Except Err Nat :=
  if digitsVal d ≤ goMaxInt then .ok (digitsVal d) else .error (.atoiRange d)

/-- Reference style 1: `org/repo#(\d+)`.  The organization and repository
names are interpolated verbatim into the Go regex; the embedding treats them
literally, which coincides with the regex for names free of regex
metacharacters (theorems quantifying over them carry that restriction). -/
def refPatDirect (org repo : Str) : List PatPiece :=
  [.lit (org ++ strL "/" ++ repo ++ strL "#"), .cap digitChar]

/-- Reference style 2: `github.com/org/repo/pull/(\d+)` — the unescaped dot
is a genuine single-character wildcard. -/
def refPatURL (org repo : Str) : List PatPiece :=
  [.lit (strL "github"), .anyChar,
   .lit (strL "com/" ++ org ++ strL "/" ++ repo ++ strL "/pull/"),
   .cap digitChar]

/-- Reference style 3: `\[org#(\d+)\]`. -/
def refPatBracket (org : Str) : List PatPiece :=
  [.lit (strL "[" ++ org ++ strL "#"), .cap digitChar, .lit (strL "]")]

/-- Convert the submatches of one reference style into numbers, in order;
a match with an unexpected group count is skipped (`len(m) == 2` guard),
and an out-of-range number aborts with the `Atoi` error. -/
def refNumsOfMatches : List (List Str) → Except Err (List Nat)
  | [] => .ok []
  | caps :: rest =>
    match caps with
    | [d] => do
      let n ← goAtoi d
      let l ← refNumsOfMatches rest
      .ok (n :: l)
    | _ => refNumsOfMatches rest

/-- All reference numbers of one style found in a text, in order. -/
def refNumsOfPat (pat : List PatPiece) (text : Str) : Except Err (List Nat) :=
  refNumsOfMatches (findAllSub pat text)

/-- `searchPullRequestRefs`: scan the text with the three reference styles
in their fixed order, concatenating each style's matches. -/
def searchPullRequestRefs (org repo text : Str) : Except Err (List Nat) := do
  let r1 ← refNumsOfPat (refPatDirect org repo) text
  let r2 ← refNumsOfPat (refPatURL org repo) text
  let r3 ← refNumsOfPat (refPatBracket org) text
  .ok (r1 ++ r2 ++ r3)

/-- `commitRefsAreAmbiguos`: more than one reference with at least one
differing from the first. -/
def commitRefsAreAmbiguos (refs : List Nat) : Bool :=
  match refs with
  | [] => false
  | r :: rest => rest.any (fun x => x ≠ r)

/-! ## The comment cache and the commit-reference search -/

/-- The GitHub-collaborator oracles used while scanning one commit. -/
structure ScanEnv where
  /-- result of listing the pull requests containing the commit in the fork
  repository (before the merged filter) -/
  forkPullsRaw : Except Err (List PullRequest) := .ok []
  /-- result of listing the pull requests containing the commit in the
  upstream repository (before the merged filter) -/
  upstreamPullsRaw : Except Err (List PullRequest) := .ok []
  /-- result of `ListCommitComments` for a repository full name -/
  fetchComments : Str → Except Err (List Str) := fun _ => .ok []
  /-- result of `PullRequests.Get` on the upstream repository -/
  refPR : Nat → Except Err PullRequest := fun _ => .error (.collab (strL "no pr"))

/-- `commitInfo.getComments`: comments are fetched when the cached repository
name differs from the requested one, and the cache then holds that
repository's listing; otherwise the cache is served.  Also returns the
updated record and the list of listing requests issued (for the at-most-once
analysis). -/
def commitInfo.getComments (c : commitInfo)
    (fetch : Str → Except Err (List Str)) (org repo : Str) :
    Except Err (List Str) × commitInfo × List Str :=
  let repoName := org ++ strL "/" ++ repo
  if c.commentsRepo ≠ repoName then
    match fetch repoName with
    | .error e => (.error e, c, [repoName])
    | .ok l =>
      (.ok l, { c with comments := l, commentsRepo := repoName }, [repoName])
  else
    (.ok c.comments, c, [])

/-- The pull-request-body leg of `searchForkCommitRef`: walk the fork-side
pull requests, failing on the first ambiguous body and returning the first
body that yields any reference. -/
def searchRefInPRBodies (uo ur fo fr : Str) :
    List PullRequest → Except Err (Option Nat)
  | [] => .ok none
  | pr :: rest =>
    match searchPullRequestRefs uo ur pr.body with
    | .error e => .error e
    | .ok refs =>
      if commitRefsAreAmbiguos refs then .error (.ambiguousPRBody fo fr pr.number)
      else
        match refs with
        | r :: _ => .ok (some r)
        | [] => searchRefInPRBodies uo ur fo fr rest

/-- The review-comment leg of `searchForkCommitRef`. -/
def searchRefInComments (uo ur fo fr sha : Str) :
    List Str → Except Err (Option Nat)
  | [] => .ok none
  | comment :: rest =>
    match searchPullRequestRefs uo ur comment with
    | .error e => .error e
    | .ok refs =>
      if commitRefsAreAmbiguos refs then .error (.ambiguousComment fo fr sha)
      else
        match refs with
        | r :: _ => .ok (some r)
        | [] => searchRefInComments uo ur fo fr sha rest

/-- `searchForkCommitRef`: search for an upstream pull-request reference in,
in priority order, the bodies of the fork-side pull requests containing the
commit, the commit's own message, and the commit's review comments; stop at
the first source yielding any reference, failing if that source is
ambiguous.  `0` means no reference found.  Returns the possibly
comment-cache-updated record alongside. -/
def searchForkCommitRef (env : ScanEnv) (req : Request) (c : commitInfo) :
    Except Err (Nat × commitInfo) :=
  match searchRefInPRBodies req.UpstreamOrg req.UpstreamRepo req.ForkOrg
      req.ForkRepo (c.pullRequestsOfRepo req.ForkOrg req.ForkRepo) with
  | .error e => .error e
  | .ok (some r) => .ok (r, c)
  | .ok none =>
    match searchPullRequestRefs req.UpstreamOrg req.UpstreamRepo c.Message with
    | .error e => .error e
    | .ok refs =>
      if commitRefsAreAmbiguos refs then
        .error (.ambiguousCommitMsg req.ForkOrg req.ForkRepo c.SHA)
      else
        match refs with
        | r :: _ => .ok (r, c)
        | [] =>
          match c.getComments env.fetchComments req.ForkOrg req.ForkRepo with
          | (.error e, _, _) => .error e
          | (.ok comments, c2, _) =>
            match searchRefInComments req.UpstreamOrg req.UpstreamRepo
                req.ForkOrg req.ForkRepo c2.SHA comments with
            | .error e => .error e
            | .ok (some r) => .ok (r, c2)
            | .ok none => .ok (0, c2)

/-- `searchCommitMarkers`: collect into the record's marker set every marker
whose literal string occurs in the commit message or in any review comment. -/
def searchCommitMarkers (env : ScanEnv) (req : Request) (c : commitInfo) :
    Except Err commitInfo :=
  let fromMsg := (AllCommitMarkers.filter
    (fun m => containsSubstr m.str c.Message)).map CommitMarker.str
  match c.getComments env.fetchComments req.ForkOrg req.ForkRepo with
  | (.error e, _, _) => .error e
  | (.ok comments, c2, _) =>
    let fromComments := (AllCommitMarkers.filter
      (fun m => comments.any (fun b => containsSubstr m.str b))).map CommitMarker.str
    .ok { c2 with Markers := (fromMsg ++ fromComments).dedup }

/-- `scanRepoCommit`: build the commit record for one fork commit.  Fork-side
pull-request listing failures abort; upstream-side listing failures are
purposely ignored.  A referenced upstream pull request that is merged makes
the commit skipped (`none`), as does the ignore marker. -/
def scanRepoCommit (env : ScanEnv) (req : Request) (c : RepoCommit) :
    Except Err (Option commitInfo) :=
  let res : commitInfo := { Commit := c }
  match env.forkPullsRaw with
  | .error e => .error e
  | .ok forkPulls =>
    let res := { res with PullRequests := forkPulls.filter (·.mergedAt.isSome) }
    let res :=
      match env.upstreamPullsRaw with
      | .error _ => res
      | .ok upstreamPulls =>
        { res with PullRequests :=
            res.PullRequests ++ upstreamPulls.filter (·.mergedAt.isSome) }
    match searchForkCommitRef env req res with
    | .error e => .error e
    | .ok (ref, res) =>
      let proceed : Except Err Bool :=
        if ref ≠ 0 then
          match env.refPR ref with
          | .error e => .error e
          | .ok pr => if pr.mergedAt.isSome then .ok false else .ok true
        else .ok true
      match proceed with
      | .error e => .error e
      | .ok false => .ok none
      | .ok true =>
        match searchCommitMarkers env req res with
        | .error e => .error e
        | .ok res =>
          if res.HasMarker .ignore then .ok none
          else .ok (some res)

/-- The stopping condition of the scan walk: the record's pull requests are
exactly one, that one belongs to the upstream repository, and it is merged. -/
def scanStopCondition (req : Request) (info : commitInfo) : Bool :=
  let upstreamPRs := info.pullRequestsOfRepo req.UpstreamOrg req.UpstreamRepo
  info.PullRequests.length = 1 && upstreamPRs.length = 1 &&
    (upstreamPRs.headD ⟨[], 0, [], none, []⟩).mergedAt.isSome

/-- The `ConsumeSequence` loop of `scan`: process each commit in walk order
(newest first), skipping `none` results, collecting the rest, and breaking
out (returning what was collected so far) when the stop condition holds —
the breakout commit itself is not collected.  After exhausting the yielded
commits, a pending listing error of the commit sequence surfaces. -/
def scanConsume (envOf : RepoCommit → ScanEnv) (req : Request)
    (listErr : Option Err) :
    List RepoCommit → List commitInfo → Except Err (List commitInfo)
  | [], acc =>
    match listErr with
    | some e => .error e
    | none => .ok acc
  | c :: rest, acc =>
    match scanRepoCommit (envOf c) req c with
    | .error e => .error e
    | .ok none => scanConsume envOf req listErr rest acc
    | .ok (some info) =>
      if scanStopCondition req info then .ok acc
      else scanConsume envOf req listErr rest (acc ++ [info])

/-- `scan`: walk the fork's history from the head ref (the commits the
listing yields, newest first, with a possible trailing listing error) and
return the collected records reversed to oldest-first order. -/
def scan (envOf : RepoCommit → ScanEnv) (req : Request)
    (commits : List RepoCommit) (listErr : Option Err) :
    Except Err (List commitInfo) :=
  (scanConsume envOf req listErr commits []).map List.reverse

/-! ## The replay orchestrator (`Sync`) -/

/-- `utils.ProjectName`. -/
def ProjectName : Str := strL "synchro"

/-- The collaborator oracles used by the replay orchestrator. -/
structure SyncEnv where
  /-- result of `git.HasLocalChanges()` -/
  hasLocalChanges : Except Err Bool := .ok false
  /-- outcome of the repo scan (`scan(ctx, client, req)`), an API-side
  operation modelled by the scan embedding above -/
  scanRes : Except Err (List commitInfo) := .ok []
  /-- result of `git.GetRemotes()` (name, url) -/
  remotes : Except Err (List (Str × Str)) := .ok []
  /-- result of `git.TagExists(ref)` -/
  tagExists : Str → Except Err Bool := fun _ => .ok false
  /-- result of `git.GetCurrentBranch()` -/
  currentBranch : Except Err Str := .ok (strL "main")
  /-- result of `git.GetRemoteDefaultBranch(remote)` -/
  remoteDefaultBranch : Str → Except Err Str := fun _ => .ok (strL "main")
  /-- the error returned by `git.Do args`, if any -/
  doErr : Cmd → Option Err := fun _ => none
  /-- result of `git.DoOutput "cherry-pick" "--allow-empty" sha`: the
  command output and the error, if any -/
  cherryPick : Str → Str × Option Err := fun _ => ([], none)
  /-- result of `git.HasMergeConflicts()` -/
  hasMergeConflicts : Except Err Bool := .ok false
  /-- result of `git.ListUnmergedFiles()` -/
  listUnmerged : Except Err (List Str) := .ok []

/-- `requireNoLocalChanges`: a dirty working tree (or a failing check) stops
the run before anything else happens. -/
def requireNoLocalChanges (env : SyncEnv) : Except Err Unit :=
  match env.hasLocalChanges with
  | .error e => .error e
  | .ok true => .error (.multiOne .localChanges)
  | .ok false => .ok ()

/-- `git add` each of the given still-unmerged paths, aborting at the first
failure. -/
def addAllUnmerged (env : SyncEnv) : List Str → Except Err Unit × List Cmd
  | [] => (.ok (), [])
  | f :: rest =>
    match env.doErr [strL "add", f] with
    | some e => (.error e, [[strL "add", f]])
    | none =>
      let (r, t) := addAllUnmerged env rest
      (r, [strL "add", f] :: t)

/-- The two-argument `attemptMergeConflictRecovery` used by this snapshot of
the orchestrator: hope `git rerere` already solved the conflicts, fail if
any remain, then `git add` each still-unmerged path. -/
def attemptMergeConflictRecoveryV2 (env : SyncEnv) (mergeOut : Str) :
    Except Err Unit × List Cmd :=
  let _ := countMergeConflicts mergeOut
  match env.hasMergeConflicts with
  | .error e => (.error e, [])
  | .ok true => (.error (.multiOne .unresolvedConflicts), [])
  | .ok false =>
    match env.listUnmerged with
    | .error e => (.error e, [])
    | .ok unmerged => addAllUnmerged env unmerged

/-- `applyAllPatches`: cherry-pick each patch-set entry in order; on a
cherry-pick failure run conflict recovery and either continue the
cherry-pick or revert with `git reset --hard` and abort. -/
def applyAllPatches (env : SyncEnv) : List commitInfo → Except Err Unit × List Cmd
  | [] => (.ok (), [])
  | c :: rest =>
    let pick : Cmd := [strL "cherry-pick", strL "--allow-empty", c.SHA]
    let (out, pickErr) := env.cherryPick c.SHA
    match pickErr with
    | none =>
      let (r, t) := applyAllPatches env rest
      (r, pick :: t)
    | some _ =>
      let confErr := Err.conflictOnCommit c.SHA
      let (rec_, tRec) := attemptMergeConflictRecoveryV2 env out
      match rec_ with
      | .error recErr =>
        (.error (.multi confErr recErr), pick :: tRec ++ [[strL "reset", strL "--hard"]])
      | .ok _ =>
        match env.doErr [strL "cherry-pick", strL "--allow-empty", strL "--continue"] with
        | some contErr =>
          (.error (.multi confErr contErr),
           pick :: tRec ++ [[strL "cherry-pick", strL "--allow-empty", strL "--continue"],
             [strL "reset", strL "--hard"]])
        | none =>
          let (r, t) := applyAllPatches env rest
          (r, pick :: tRec ++ [strL "cherry-pick", strL "--allow-empty", strL "--continue"] :: t)

/-- `withTempLocalBranch`: check out a fresh local branch tracking the
requested remote ref, run the body, and check the original branch back out
on exit. -/
def withTempLocalBranch (env : SyncEnv) (localBranch remote remoteBranch : Str)
    (f : Except Err Unit × List Cmd) : Except Err Unit × List Cmd :=
  match env.tagExists remoteBranch with
  | .error e => (.error e, [])
  | .ok isTag =>
    let remoteRef := if isTag then remoteBranch else remote ++ strL "/" ++ remoteBranch
    match env.currentBranch with
    | .error e => (.error e, [])
    | .ok curBranch0 =>
      let moveOff :
          Except Err (Str × List Cmd) :=
        if curBranch0 = localBranch then
          match env.remoteDefaultBranch (strL "origin") with
          | .error e => .error e
          | .ok defBranch =>
            match env.doErr [strL "checkout", defBranch] with
            | some e => .error e
            | none => .ok (defBranch, [[strL "checkout", defBranch]])
        else .ok (curBranch0, [])
      match moveOff with
      | .error e => (.error e, [])
      | .ok (curBranch, t0) =>
        let tDel := [[strL "branch", strL "-D", localBranch]]
        let co : Cmd := [strL "checkout", strL "-b", localBranch, remoteRef]
        match env.doErr co with
        | some e => (.error e, t0 ++ tDel ++ [co])
        | none =>
          let (r, t) := f
          (r, t0 ++ tDel ++ [co] ++ t ++ [[strL "checkout", curBranch]])

/-- `withTempGitRemote`: add a disposable remote, fetch it with tags, run
the body, then prune and remove the remote on exit. -/
def withTempGitRemote (env : SyncEnv) (remote url : Str)
    (f : Except Err Unit × List Cmd) : Except Err Unit × List Cmd :=
  let tRm : Cmd := [strL "remote", strL "remove", remote]
  let tAdd : Cmd := [strL "remote", strL "add", remote, url]
  let tFetch : Cmd := [strL "fetch", strL "--tags", remote]
  let tPrune : Cmd := [strL "fetch", strL "--prune", remote]
  match env.doErr tAdd with
  | some e => (.error e, [tRm, tAdd])
  | none =>
    match env.doErr tFetch with
    | some e => (.error e, [tRm, tAdd, tFetch, tPrune, tRm])
    | none =>
      let (r, t) := f
      (r, [tRm, tAdd, tFetch] ++ t ++ [tPrune, tRm])

/-- The dry-run preview line for one patch-set entry:
`git cherry-pick <sha> # <title>`. -/
def dryRunLine (c : commitInfo) : Str :=
  strL "git cherry-pick " ++ c.SHA ++ strL " # " ++ c.Title

/-- `Sync`: require a clean tree, resolve the patch set, and either preview
it (dry run: one line per entry on stdout, no git commands at all) or replay
it onto a fresh branch tracking the upstream head.  Result: the outcome, the
stdout lines, and the trace of issued git commands. -/
def Sync (env : SyncEnv) (req : Request) :
    Except Err Unit × List Str × List Cmd :=
  match requireNoLocalChanges env with
  | .error e => (.error e, [], [])
  | .ok _ =>
    match env.scanRes with
    | .error e => (.error e, [], [])
    | .ok scanRes =>
      if req.DryRun then
        (.ok (), scanRes.map dryRunLine, [])
      else
        match env.remotes with
        | .error e => (.error e, [], [])
        | .ok remotes =>
          if remotes.length = 0 then (.error .noRemotes, [], [])
          else
            match remotes.lookup (strL "origin") with
            | none => (.error .noOrigin, [], [])
            | some originRemote =>
              if ¬ strEnds (req.ForkOrg ++ strL "/" ++ req.ForkRepo ++ strL ".git")
                  originRemote then
                (.error (.originMismatch originRemote), [], [])
              else
                let remoteName :=
                  strL "temp-" ++ ProjectName ++ strL "-sync-upstream"
                let remoteURL :=
                  strL "https://github.com/" ++ req.UpstreamOrg ++ strL "/" ++
                    req.UpstreamRepo
                let (r, t) :=
                  withTempGitRemote env remoteName remoteURL
                    (withTempLocalBranch env req.OutBranch remoteName
                      req.UpstreamHeadRef (applyAllPatches env scanRes))
                (r, [], t)

/-! ## A small interpreter of git commands over a set of paths

Used to state what a recovery action does to the working tree: `rm -f p`
removes `p`, `mv a b` renames `a` to `b`, other commands leave the set of
existing paths unchanged. -/

/-- Apply one traced git command to the set of paths present in the tree. -/
def applyCmd (tree : List Str) (cmd : Cmd) : List Str :=
  match cmd with
  | [a, b, p] =>
    if a = strL "rm" ∧ b = strL "-f" then tree.filter (fun q => q ≠ p)
    else if a = strL "mv" then
      if tree.contains b then (tree.filter (fun q => q ≠ b)) ++ [p] else tree
    else tree
  | _ => tree

/-- Apply a trace of git commands to the tree, left to right. -/
def applyCmds (tree : List Str) (cmds : List Cmd) : List Str :=
  cmds.foldl applyCmd tree

/-- A sequence of `GetComments` calls on one record: run each call in order,
threading the record (and with it the comment cache), and collect every
comment-listing request issued to the code-hosting collaborator. -/
def runGetComments (fetch : Str → Except Err (List Str)) (c : commitInfo) :
    List (Str × Str) → commitInfo × List Str
  | [] => (c, [])
  | (o, r) :: rest =>
    let out := c.getComments fetch o r
    let (c3, t2) := runGetComments fetch out.2.1 rest
    (c3, out.2.2 ++ t2)

/-! ## The spec-side description of reference resolution (for C4) -/

/-- A searched text source: a fork pull-request body, the commit's own
message, or one review comment. -/
inductive RefSource where
  | prBody (pr : PullRequest)
  | commitMsg
  | comment (body : Str)
  deriving DecidableEq, Repr

/-- The text of a source. -/
def refSourceText (c : commitInfo) : RefSource → Str
  | .prBody pr => pr.body
  | .commitMsg => c.Message
  | .comment b => b

/-- The ambiguity error naming a source (the fork PR's URL data, or the
commit). -/
def refSourceErr (req : Request) (c : commitInfo) : RefSource → Err
  | .prBody pr => .ambiguousPRBody req.ForkOrg req.ForkRepo pr.number
  | .commitMsg => .ambiguousCommitMsg req.ForkOrg req.ForkRepo c.SHA
  | .comment _ => .ambiguousComment req.ForkOrg req.ForkRepo c.SHA

/-- Spec-side ambiguity: two or more matches whose numbers are not all
equal. -/
def refsDisagree (refs : List Nat) : Bool :=
  decide (2 ≤ refs.length) && ! refs.all (fun x => x = refs.headD 0)

/-- Spec-side resolution, following the spec's words: walk the sources in
priority order and stop at the first one yielding at least one match; fail
with an ambiguity error naming that source when its matches disagree,
resolve to the common number otherwise; `0` when no source yields a match. -/
def resolveRefSpec (req : Request) (c : commitInfo) :
    List RefSource → Except Err Nat
  | [] => .ok 0
  | s :: rest =>
    match searchPullRequestRefs req.UpstreamOrg req.UpstreamRepo
        (refSourceText c s) with
    | .error e => .error e
    | .ok refs =>
      if refs.isEmpty then resolveRefSpec req c rest
      else if refsDisagree refs then .error (refSourceErr req c s)
      else .ok (refs.headD 0)

/-- The source list searched for a commit whose review comments are `cs`. -/
def refSourcesOf (req : Request) (c : commitInfo) (cs : List Str) :
    List RefSource :=
  (c.pullRequestsOfRepo req.ForkOrg req.ForkRepo).map .prBody ++
    [.commitMsg] ++ cs.map .comment

/-- The non-content conflict list assembled by `attemptMergeConflictRecovery`
from the five classification results, in the source's order. -/
def classifiedConflicts (md : List modifyDeleteConflictInfo)
    (rr : List renameRenameConflictInfo) (rd : List renameDeleteConflictInfo)
    (dm : List deleteModifyConflictInfo) (dr : List deleteRenameConflictInfo) :
    List ConflictItem :=
  md.map .modifyDelete ++ rr.map .renameRename ++ rd.map .renameDelete ++
    dm.map .deleteModify ++ dr.map .deleteRename

/-- Whether a conflict item is a content conflict. -/
def ConflictItem.isContent : ConflictItem → Bool
  | .content _ => true
  | _ => false

/-! # Theorems -/

/-- C10: `ShortSHA` returns the first 8 characters of the SHA whenever the
SHA has at least 8 characters, and is a panic (modelled `none`) — in
particular on the zero-value record's empty SHA — whenever it is shorter. -/
theorem shortSHA_requires_eight_chars (c : commitInfo) :
    (8 ≤ c.SHA.length → c.ShortSHA = some (c.SHA.take 8)) ∧
    (c.SHA.length < 8 → c.ShortSHA = none) := by
  constructor
  · intro h
    simp [commitInfo.ShortSHA, h]
  · intro h
    simp only [commitInfo.ShortSHA]
    rw [if_neg (by omega)]

theorem shortSHA_requires_eight_chars_witness :
    ({ Commit := { sha := strL "0123456789abcdef", message := [] } } :
        commitInfo).ShortSHA = some (strL "01234567") ∧
    ({ Commit := { sha := [], message := [] } } : commitInfo).ShortSHA = none :=
  ⟨(shortSHA_requires_eight_chars _).1 (by decide),
   (shortSHA_requires_eight_chars _).2 (by decide)⟩

/-- C3: the report line
`CONFLICT (rename/rename): a.txt renamed to a2.txt in HEAD and to a3.txt in
1234abcd (msg).` classifies as exactly one rename/rename conflict with
original `a.txt`, upstream target `a2.txt` and fork target `a3.txt`; on a
commit carrying neither conflict marker the default (conflict-apply)
recovery removes the fork target and `git mv`s the upstream target onto it,
succeeding, so that a tree holding `a2.txt` and `a3.txt` ends up containing
`a3.txt` and no longer containing `a2.txt`. -/
theorem renameRename_classify_and_default_recover :
    getRenameRenameConflictInfos
        (strL "CONFLICT (rename/rename): a.txt renamed to a2.txt in HEAD and to a3.txt in 1234abcd (msg).") =
      .ok [⟨strL "a.txt", strL "a2.txt", strL "a3.txt"⟩] ∧
    (renameRenameRecover {} ⟨strL "a.txt", strL "a2.txt", strL "a3.txt"⟩
        { Commit := { sha := strL "1234abcd", message := [] }, Markers := [] } =
      (.ok (),
       [[strL "rm", strL "-f", strL "a3.txt"],
        [strL "mv", strL "a2.txt", strL "a3.txt"]])) ∧
    (applyCmds [strL "a2.txt", strL "a3.txt"]
        [[strL "rm", strL "-f", strL "a3.txt"],
         [strL "mv", strL "a2.txt", strL "a3.txt"]]).contains (strL "a3.txt") = true ∧
    (applyCmds [strL "a2.txt", strL "a3.txt"]
        [[strL "rm", strL "-f", strL "a3.txt"],
         [strL "mv", strL "a2.txt", strL "a3.txt"]]).contains (strL "a2.txt") = false := by
  refine ⟨by decide, by decide, by decide, by decide⟩

/-- C9 counterexample: on the call sequence repository A, repository B,
repository A again — all fetches succeeding — the record requests A's
comment listing twice: the cache only remembers the most recently fetched
repository, so comments are not fetched at most once per repository. -/
theorem getComments_refetches_on_alternating_repos :
    (runGetComments (fun _ => .ok [])
        { Commit := { sha := strL "abc", message := [] } }
        [(strL "o1", strL "r1"), (strL "o2", strL "r2"),
         (strL "o1", strL "r1")]).2.count (strL "o1/r1") = 2 := by
  decide

/-- If the record's cache already holds the requested repository, a
`GetComments` call issues no listing request and leaves the record
unchanged. -/
theorem getComments_cache_hit (fetch : Str → Except Err (List Str))
    (c : commitInfo) (org repo : Str)
    (h : c.commentsRepo = org ++ strL "/" ++ repo) :
    c.getComments fetch org repo = (.ok c.comments, c, []) := by
  simp [commitInfo.getComments, h]

/-- C9 amended: over any sequence of `GetComments` calls all naming the same
repository, when that repository's listing succeeds, the collaborator is
asked for it at most once; every later call is served from the record's
cache. -/
theorem getComments_single_fetch_same_repo
    (fetch : Str → Except Err (List Str)) (org repo : Str) (l : List Str)
    (hf : fetch (org ++ strL "/" ++ repo) = .ok l) :
    ∀ (calls : List (Str × Str)) (c : commitInfo),
      (∀ x ∈ calls, x = (org, repo)) →
      (runGetComments fetch c calls).2.length ≤ 1 := by
  have cached : ∀ (calls : List (Str × Str)) (c : commitInfo),
      (∀ x ∈ calls, x = (org, repo)) →
      c.commentsRepo = org ++ strL "/" ++ repo →
      (runGetComments fetch c calls).2.length = 0 := by
    intro calls
    induction calls with
    | nil => intro c _ _; simp [runGetComments]
    | cons hd tl ih =>
      intro c hall hc
      obtain rfl : hd = (org, repo) := hall hd (by simp)
      simp only [runGetComments, getComments_cache_hit fetch c org repo hc]
      simpa using ih c (fun x hx => hall x (by simp [hx])) hc
  have miss : ∀ c : commitInfo, c.commentsRepo ≠ org ++ strL "/" ++ repo →
      c.getComments fetch org repo =
        (.ok l, { c with comments := l, commentsRepo := org ++ strL "/" ++ repo },
         [org ++ strL "/" ++ repo]) := by
    intro c hne
    unfold commitInfo.getComments
    rw [if_pos hne, hf]
  intro calls c hall
  cases calls with
  | nil => simp [runGetComments]
  | cons hd tl =>
    obtain rfl : hd = (org, repo) := hall hd (by simp)
    by_cases hc : c.commentsRepo = org ++ strL "/" ++ repo
    · have h0 := cached ((org, repo) :: tl) c hall hc
      omega
    · simp only [runGetComments, miss c hc]
      have h0 := cached tl
          { c with comments := l, commentsRepo := org ++ strL "/" ++ repo }
          (fun x hx => hall x (by simp [hx])) rfl
      simp only [List.singleton_append, List.length_cons, h0]
      omega

theorem getComments_single_fetch_same_repo_witness :
    (runGetComments (fun _ => .ok [strL "hello"])
        { Commit := { sha := strL "abc", message := [] } }
        [(strL "o1", strL "r1"), (strL "o1", strL "r1"),
         (strL "o1", strL "r1")]).2.length ≤ 1 :=
  getComments_single_fetch_same_repo (fun _ => .ok [strL "hello"])
    (strL "o1") (strL "r1") [strL "hello"] rfl _ _ (by decide)

/-- C7: with the dry-run flag set, once the working tree passes the
clean-tree check and the scan resolves the patch set, `Sync` prints exactly
one `git cherry-pick <sha> # <title>` line per patch-set entry, in patch-set
order, issues no git command at all, and returns without error. -/
theorem sync_dry_run_previews_without_mutation (env : SyncEnv) (req : Request)
    (ps : List commitInfo) (hdry : req.DryRun = true)
    (hclean : env.hasLocalChanges = .ok false)
    (hscan : env.scanRes = .ok ps) :
    Sync env req = (.ok (), ps.map dryRunLine, []) := by
  simp [Sync, requireNoLocalChanges, hclean, hscan, hdry]

theorem sync_dry_run_previews_without_mutation_witness :
    Sync { scanRes := .ok
            [{ Commit := { sha := strL "1111aaaa", message := strL "first\nbody" } },
             { Commit := { sha := strL "2222bbbb", message := strL "second" } }] }
        { UpstreamOrg := strL "uo", UpstreamRepo := strL "ur",
          UpstreamHeadRef := strL "v1", ForkOrg := strL "fo",
          ForkRepo := strL "fr", ForkHeadRef := strL "main",
          OutBranch := strL "out", DryRun := true } =
      (.ok (),
       [strL "git cherry-pick 1111aaaa # first",
        strL "git cherry-pick 2222bbbb # second"], []) := by
  have h := sync_dry_run_previews_without_mutation
    { scanRes := .ok
        [{ Commit := { sha := strL "1111aaaa", message := strL "first\nbody" } },
         { Commit := { sha := strL "2222bbbb", message := strL "second" } }] }
    { UpstreamOrg := strL "uo", UpstreamRepo := strL "ur",
      UpstreamHeadRef := strL "v1", ForkOrg := strL "fo",
      ForkRepo := strL "fr", ForkHeadRef := strL "main",
      OutBranch := strL "out", DryRun := true }
    [{ Commit := { sha := strL "1111aaaa", message := strL "first\nbody" } },
     { Commit := { sha := strL "2222bbbb", message := strL "second" } }]
    rfl rfl rfl
  rw [h]
  decide

/-- A non-content recovery action succeeds whenever the collaborator accepts
every issued git command (content conflicts are the only category whose
recovery can fail on its own). -/
theorem recoverConflictItem_ok (env : RecoveryEnv) (c : commitInfo)
    (hdo : ∀ args, env.doErr args = none) (item : ConflictItem)
    (h : item.isContent = false) :
    (recoverConflictItem env item c).1 = .ok () := by
  cases item with
  | content info => simp [ConflictItem.isContent] at h
  | deleteModify info =>
    cases hA : c.HasMarker .conflictApply <;>
      simp [recoverConflictItem, deleteModifyRecover, hA, hdo, wrapRecoveryError]
  | deleteRename info =>
    cases hA : c.HasMarker .conflictApply <;>
      simp [recoverConflictItem, deleteRenameRecover, hA, hdo, wrapRecoveryError]
  | renameRename info =>
    cases hA : c.HasMarker .conflictSkip <;>
      simp [recoverConflictItem, renameRenameRecover, hA, hdo, wrapRecoveryError]
  | renameDelete info =>
    cases hA : c.HasMarker .conflictSkip <;>
      simp [recoverConflictItem, renameDeleteRecover, hA, hdo, wrapRecoveryError]
  | modifyDelete info =>
    cases hA : c.HasMarker .conflictSkip <;>
      simp [recoverConflictItem, modifyDeleteRecover, hA, hdo, wrapRecoveryError]

/-- Recovering a list of non-content conflicts succeeds when the
collaborator accepts every issued git command. -/
theorem recoverAll_ok (env : RecoveryEnv) (c : commitInfo)
    (hdo : ∀ args, env.doErr args = none) :
    ∀ items : List ConflictItem, (∀ i ∈ items, i.isContent = false) →
      (recoverAll env c items).1 = .ok () := by
  intro items
  induction items with
  | nil => intro _; simp [recoverAll]
  | cons item rest ih =>
    intro h
    have h1 := recoverConflictItem_ok env c hdo item (h item (by simp))
    have h2 := ih (fun i hi => h i (by simp [hi]))
    simp only [recoverAll]
    cases hh : recoverConflictItem env item c with
    | mk r t =>
      rw [hh] at h1
      simp only at h1
      subst h1
      cases hh2 : recoverAll env c rest with
      | mk r2 t2 =>
        rw [hh2] at h2
        simp only at h2
        subst h2
        simp

/-- Every item assembled from the five non-content classification results is
a non-content item. -/
theorem classifiedConflicts_nonContent (md rr rd dm dr) :
    ∀ i ∈ classifiedConflicts md rr rd dm dr, i.isContent = false := by
  intro i hi
  simp only [classifiedConflicts, List.mem_append, List.mem_map] at hi
  rcases hi with ((((⟨x, _, rfl⟩ | ⟨x, _, rfl⟩) | ⟨x, _, rfl⟩) | ⟨x, _, rfl⟩) | ⟨x, _, rfl⟩) <;>
    rfl

/-- When `git diff --check` comes back clean, the content-conflict phase
does nothing and succeeds. -/
theorem contentPhase_ok_of_clean_diff (env : RecoveryEnv) (c : commitInfo)
    (n : Nat) (hdiff : env.diffCheck = .ok []) :
    contentPhase env c n = (.ok (), []) := by
  simp [contentPhase, hdiff]

/-- C2: with `unknown := total - (classified + content)` as the code computes
it, the total conflict count decomposes as
`total = classified + content + unknown`; and whenever `unknown > 0` the
recovery function fails with the unknown-conflicts error having issued no
git command at all — before any per-category recovery action. -/
theorem attempt_recovery_unknown_conflicts_abort
    (env : RecoveryEnv) (out : Str) (c : commitInfo)
    (md : List modifyDeleteConflictInfo) (rr : List renameRenameConflictInfo)
    (rd : List renameDeleteConflictInfo) (dm : List deleteModifyConflictInfo)
    (dr : List deleteRenameConflictInfo)
    (hroot : env.repoRootErr = none)
    (hmd : getModifyDeleteConflictInfos out = .ok md)
    (hrr : getRenameRenameConflictInfos out = .ok rr)
    (hrd : getRenameDeleteConflictInfos out = .ok rd)
    (hdm : getDeleteModifyConflictInfos out = .ok dm)
    (hdr : getDeleteRenameConflictInfos out = .ok dr) :
    ((countMergeConflicts out : Int) =
      ((classifiedConflicts md rr rd dm dr).length : Int) +
        (countMergeContentConflicts out : Int) +
        ((countMergeConflicts out : Int) -
          (((classifiedConflicts md rr rd dm dr).length : Int) +
            (countMergeContentConflicts out : Int)))) ∧
    (0 < (countMergeConflicts out : Int) -
        (((classifiedConflicts md rr rd dm dr).length : Int) +
          (countMergeContentConflicts out : Int)) →
      attemptMergeConflictRecovery env out c =
        (.error (.unknownConflicts (countMergeContentConflicts out)
            (classifiedConflicts md rr rd dm dr).length
            (countMergeConflicts out) out), [])) := by
  constructor
  · ring
  · intro h
    simp only [classifiedConflicts] at h
    simp only [attemptMergeConflictRecovery, hroot, hmd, hrr, hrd, hdm, hdr,
      classifiedConflicts]
    rw [if_pos (Or.inr h)]

theorem attempt_recovery_unknown_conflicts_abort_witness :
    attemptMergeConflictRecovery {}
        (strL "CONFLICT (add/add): Merge conflict in x")
        { Commit := { sha := strL "abc", message := [] } } =
      (.error (.unknownConflicts 0 0 1
          (strL "CONFLICT (add/add): Merge conflict in x")), []) :=
  (attempt_recovery_unknown_conflicts_abort {}
      (strL "CONFLICT (add/add): Merge conflict in x")
      { Commit := { sha := strL "abc", message := [] } }
      [] [] [] [] [] rfl (by decide) (by decide) (by decide) (by decide)
      (by decide)).2 (by decide)

/-- C1: once classification succeeded, no unknown conflicts remained, every
git command is accepted, and the content markers are already clean, the
recovery function reaches its final re-verification: if the number of
still-unmerged paths differs from the content-conflict count of the report
it fails with the internal-consistency error and stages nothing beyond the
per-category recovery commands; exactly when the counts match it stages all
paths (`git add -A`) and succeeds. -/
theorem attempt_recovery_unmerged_count_invariant
    (env : RecoveryEnv) (out : Str) (c : commitInfo)
    (md : List modifyDeleteConflictInfo) (rr : List renameRenameConflictInfo)
    (rd : List renameDeleteConflictInfo) (dm : List deleteModifyConflictInfo)
    (dr : List deleteRenameConflictInfo) (u : List Str)
    (hroot : env.repoRootErr = none)
    (hmd : getModifyDeleteConflictInfos out = .ok md)
    (hrr : getRenameRenameConflictInfos out = .ok rr)
    (hrd : getRenameDeleteConflictInfos out = .ok rd)
    (hdm : getDeleteModifyConflictInfos out = .ok dm)
    (hdr : getDeleteRenameConflictInfos out = .ok dr)
    (hguard : ¬(countMergeConflicts out <
        (classifiedConflicts md rr rd dm dr).length ∨
      0 < (countMergeConflicts out : Int) -
        (((classifiedConflicts md rr rd dm dr).length : Int) +
          (countMergeContentConflicts out : Int))))
    (hdo : ∀ args, env.doErr args = none)
    (hdiff : env.diffCheck = .ok [])
    (hunm : env.listUnmerged = .ok u) :
    (u.length ≠ countMergeContentConflicts out →
      attemptMergeConflictRecovery env out c =
        (.error (.unmergedMismatch u.length (countMergeContentConflicts out) u),
         (recoverAll env c (classifiedConflicts md rr rd dm dr)).2)) ∧
    (u.length = countMergeContentConflicts out →
      attemptMergeConflictRecovery env out c =
        (.ok (), (recoverAll env c (classifiedConflicts md rr rd dm dr)).2 ++
          [[strL "add", strL "-A"]])) := by
  have hra := recoverAll_ok env c hdo (classifiedConflicts md rr rd dm dr)
    (classifiedConflicts_nonContent md rr rd dm dr)
  simp only [classifiedConflicts] at hguard hra
  have hred : attemptMergeConflictRecovery env out c =
      ((finalCheckPhase env (countMergeContentConflicts out)).1,
       (recoverAll env c (classifiedConflicts md rr rd dm dr)).2 ++
         (finalCheckPhase env (countMergeContentConflicts out)).2) := by
    simp only [attemptMergeConflictRecovery, hroot, hmd, hrr, hrd, hdm, hdr,
      classifiedConflicts]
    rw [if_neg hguard]
    cases hh : recoverAll env c
        (md.map .modifyDelete ++ rr.map .renameRename ++ rd.map .renameDelete ++
          dm.map .deleteModify ++ dr.map .deleteRename) with
    | mk r1 t1 =>
      rw [hh] at hra
      simp only at hra
      subst hra
      rw [contentPhase_ok_of_clean_diff env c _ hdiff]
      cases hf : finalCheckPhase env (countMergeContentConflicts out) with
      | mk r3 t3 => simp [hh, hf]
  constructor
  · intro hne
    rw [hred]
    simp only [finalCheckPhase, hunm]
    rw [if_pos hne]
    simp
  · intro heq
    rw [hred]
    simp only [finalCheckPhase, hunm]
    rw [if_neg (by simpa using heq)]
    simp only [hdo]

theorem attempt_recovery_unmerged_count_invariant_witness :
    (0 ≠ countMergeContentConflicts
        (strL "CONFLICT (content): Merge conflict in a.c\nCONFLICT (rename/rename): a.txt renamed to a2.txt in HEAD and to a3.txt in 1234abcd (msg).") ∧
      attemptMergeConflictRecovery { listUnmerged := .ok [] }
          (strL "CONFLICT (content): Merge conflict in a.c\nCONFLICT (rename/rename): a.txt renamed to a2.txt in HEAD and to a3.txt in 1234abcd (msg).")
          { Commit := { sha := strL "abc", message := [] } } =
        (.error (.unmergedMismatch 0 1 []),
         [[strL "rm", strL "-f", strL "a3.txt"],
          [strL "mv", strL "a2.txt", strL "a3.txt"]])) ∧
    attemptMergeConflictRecovery { listUnmerged := .ok [strL "a.c"] }
        (strL "CONFLICT (content): Merge conflict in a.c\nCONFLICT (rename/rename): a.txt renamed to a2.txt in HEAD and to a3.txt in 1234abcd (msg).")
        { Commit := { sha := strL "abc", message := [] } } =
      (.ok (),
       [[strL "rm", strL "-f", strL "a3.txt"],
        [strL "mv", strL "a2.txt", strL "a3.txt"],
        [strL "add", strL "-A"]]) := by
  have h1 := (attempt_recovery_unmerged_count_invariant
    { listUnmerged := .ok [] }
    (strL "CONFLICT (content): Merge conflict in a.c\nCONFLICT (rename/rename): a.txt renamed to a2.txt in HEAD and to a3.txt in 1234abcd (msg).")
    { Commit := { sha := strL "abc", message := [] } }
    [] [⟨strL "a.txt", strL "a2.txt", strL "a3.txt"⟩] [] [] [] []
    rfl (by decide) (by decide) (by decide) (by decide) (by decide)
    (by decide) (fun _ => rfl) rfl rfl).1 (by decide)
  have h2 := (attempt_recovery_unmerged_count_invariant
    { listUnmerged := .ok [strL "a.c"] }
    (strL "CONFLICT (content): Merge conflict in a.c\nCONFLICT (rename/rename): a.txt renamed to a2.txt in HEAD and to a3.txt in 1234abcd (msg).")
    { Commit := { sha := strL "abc", message := [] } }
    [] [⟨strL "a.txt", strL "a2.txt", strL "a3.txt"⟩] [] [] [] [strL "a.c"]
    rfl (by decide) (by decide) (by decide) (by decide) (by decide)
    (by decide) (fun _ => rfl) rfl rfl).2 (by decide)
  refine ⟨⟨by decide, ?_⟩, ?_⟩
  · rw [h1]
    decide
  · rw [h2]
    decide

/-- C6: when a commit's record satisfies the stopping condition — its pull
requests are exactly one, belonging to the upstream repository and merged —
the walk stops right after processing it: the scan of any longer history is
the scan of the history truncated right after that commit, so no earlier
commit is scanned or included. -/
theorem scan_stops_after_single_merged_upstream_pr
    (envOf : RepoCommit → ScanEnv) (req : Request) (listErr : Option Err)
    (pre post : List RepoCommit) (c : RepoCommit) (info : commitInfo)
    (hc : scanRepoCommit (envOf c) req c = .ok (some info))
    (hstop : scanStopCondition req info = true) :
    scan envOf req (pre ++ c :: post) listErr =
      scan envOf req (pre ++ [c]) listErr := by
  have key : ∀ (l : List RepoCommit) (acc : List commitInfo),
      scanConsume envOf req listErr (l ++ c :: post) acc =
        scanConsume envOf req listErr (l ++ [c]) acc := by
    intro l
    induction l with
    | nil =>
      intro acc
      simp only [List.nil_append, scanConsume, hc]
      rw [if_pos hstop, if_pos hstop]
    | cons a l ih =>
      intro acc
      simp only [List.cons_append, scanConsume]
      cases scanRepoCommit (envOf a) req a with
      | error e => rfl
      | ok o =>
        cases o with
        | none =>
          dsimp only
          exact ih acc
        | some i =>
          dsimp only
          by_cases hs : scanStopCondition req i
          · rw [if_pos hs, if_pos hs]
          · rw [if_neg hs, if_neg hs]
            exact ih (acc ++ [i])
  simp only [scan]
  rw [key pre []]

theorem scan_stops_after_single_merged_upstream_pr_witness :
    scan
      (fun _ =>
        { upstreamPullsRaw := .ok
            [{ baseFullName := strL "uo/ur", number := 7, body := [],
               mergedAt := some 1, state := strL "closed" }] })
      { UpstreamOrg := strL "uo", UpstreamRepo := strL "ur",
        UpstreamHeadRef := strL "v1", ForkOrg := strL "fo",
        ForkRepo := strL "fr", ForkHeadRef := strL "main",
        OutBranch := strL "out", DryRun := false }
      [{ sha := strL "headsha1", message := strL "stop here" },
       { sha := strL "oldersha", message := strL "never visited" }] none =
    scan
      (fun _ =>
        { upstreamPullsRaw := .ok
            [{ baseFullName := strL "uo/ur", number := 7, body := [],
               mergedAt := some 1, state := strL "closed" }] })
      { UpstreamOrg := strL "uo", UpstreamRepo := strL "ur",
        UpstreamHeadRef := strL "v1", ForkOrg := strL "fo",
        ForkRepo := strL "fr", ForkHeadRef := strL "main",
        OutBranch := strL "out", DryRun := false }
      [{ sha := strL "headsha1", message := strL "stop here" }] none :=
  scan_stops_after_single_merged_upstream_pr _ _ none
    [] [{ sha := strL "oldersha", message := strL "never visited" }]
    { sha := strL "headsha1", message := strL "stop here" }
    { Commit := { sha := strL "headsha1", message := strL "stop here" },
      PullRequests :=
        [{ baseFullName := strL "uo/ur", number := 7, body := [],
           mergedAt := some 1, state := strL "closed" }],
      comments := [], commentsRepo := strL "fo/fr", Markers := [] }
    (by decide) (by decide)

/-- C8 counterexample: a failure listing the pull requests of the upstream
repository does not abort the scan — it is purposely ignored and the commit
is processed as if the upstream repository contained no pull request for it,
so the scan still returns a patch set. -/
theorem scan_tolerates_upstream_listing_failure :
    ({ upstreamPullsRaw := .error (.collab (strL "boom")) } : ScanEnv).upstreamPullsRaw
      = .error (.collab (strL "boom")) ∧
    scan
      (fun _ => { upstreamPullsRaw := .error (.collab (strL "boom")) })
      { UpstreamOrg := strL "uo", UpstreamRepo := strL "ur",
        UpstreamHeadRef := strL "v1", ForkOrg := strL "fo",
        ForkRepo := strL "fr", ForkHeadRef := strL "main",
        OutBranch := strL "out", DryRun := false }
      [{ sha := strL "abcd1234", message := strL "private patch" }] none =
    .ok [{ Commit := { sha := strL "abcd1234", message := strL "private patch" },
           PullRequests := [], comments := [], commentsRepo := strL "fo/fr",
           Markers := [] }] := by
  refine ⟨rfl, by decide⟩

/-- The repository full name `org ++ "/" ++ repo` is never the empty string,
so a freshly scanned record's empty comment cache never matches it. -/
theorem repoFullName_ne_nil (org repo : Str) :
    org ++ strL "/" ++ repo ≠ ([] : Str) := by
  intro h
  have := congrArg List.length h
  simp [strL] at this

/-- C8 amended: every collaborator failure aborts the scan with that error —
except listing the upstream repository's pull requests, which is tolerated
(see the counterexample): (a) a fork-side pull-request listing failure
aborts the commit's processing; (b) a review-comment listing failure aborts
it (reached once neither a pull-request body nor the commit message yields a
reference); (c) a failure fetching the referenced upstream pull request
aborts it; (d) a failing commit aborts the whole walk with that error and no
patch set; (e) a failure of the commit listing itself surfaces as the scan's
error. -/
theorem scan_aborts_on_collaborator_failures :
    (∀ (env : ScanEnv) (req : Request) (c : RepoCommit) (e : Err),
       env.forkPullsRaw = .error e → scanRepoCommit env req c = .error e) ∧
    (∀ (env : ScanEnv) (req : Request) (c : RepoCommit) (e : Err),
       env.forkPullsRaw = .ok [] → env.upstreamPullsRaw = .ok [] →
       searchPullRequestRefs req.UpstreamOrg req.UpstreamRepo c.message = .ok [] →
       env.fetchComments (req.ForkOrg ++ strL "/" ++ req.ForkRepo) = .error e →
       scanRepoCommit env req c = .error e) ∧
    (∀ (env : ScanEnv) (req : Request) (c : RepoCommit) (e : Err) (n : Nat),
       env.forkPullsRaw = .ok [] → env.upstreamPullsRaw = .ok [] →
       searchPullRequestRefs req.UpstreamOrg req.UpstreamRepo c.message = .ok [n] →
       n ≠ 0 → env.refPR n = .error e →
       scanRepoCommit env req c = .error e) ∧
    (∀ (envOf : RepoCommit → ScanEnv) (req : Request) (listErr : Option Err)
       (c : RepoCommit) (rest : List RepoCommit) (e : Err),
       scanRepoCommit (envOf c) req c = .error e →
       scan envOf req (c :: rest) listErr = .error e) ∧
    (∀ (envOf : RepoCommit → ScanEnv) (req : Request) (e : Err),
       scan envOf req [] (some e) = .error e) := by
  refine ⟨?_, ?_, ?_, ?_, ?_⟩
  · intro env req c e h
    simp [scanRepoCommit, h]
  · intro env req c e hfp hup hmsg hcm
    simp only [scanRepoCommit, hfp, hup, List.filter_nil, List.append_nil,
      searchForkCommitRef, commitInfo.pullRequestsOfRepo, searchRefInPRBodies,
      commitInfo.Message, hmsg, commitInfo.getComments]
    rw [if_pos (Ne.symm (repoFullName_ne_nil req.ForkOrg req.ForkRepo)), hcm]
    rw [if_neg (by decide : ¬ (commitRefsAreAmbiguos [] = true))]
  · intro env req c e n hfp hup hmsg hn hpr
    simp only [scanRepoCommit, hfp, hup, List.filter_nil, List.append_nil,
      searchForkCommitRef, commitInfo.pullRequestsOfRepo, searchRefInPRBodies,
      commitInfo.Message, hmsg]
    rw [if_neg (by simp [commitRefsAreAmbiguos])]
    dsimp only
    rw [if_pos hn, hpr]
  · intro envOf req listErr c rest e h
    simp only [scan, scanConsume, h]
    rfl
  · intro envOf req e
    simp only [scan, scanConsume]
    rfl

theorem scan_aborts_on_collaborator_failures_witness :
    scanRepoCommit { forkPullsRaw := .error (.collab (strL "net down")) }
        { UpstreamOrg := strL "uo", UpstreamRepo := strL "ur",
          UpstreamHeadRef := strL "v1", ForkOrg := strL "fo",
          ForkRepo := strL "fr", ForkHeadRef := strL "main",
          OutBranch := strL "out", DryRun := false }
        { sha := strL "abcd1234", message := strL "m" } =
      .error (.collab (strL "net down")) ∧
    scanRepoCommit { fetchComments := fun _ => .error (.collab (strL "api 500")) }
        { UpstreamOrg := strL "uo", UpstreamRepo := strL "ur",
          UpstreamHeadRef := strL "v1", ForkOrg := strL "fo",
          ForkRepo := strL "fr", ForkHeadRef := strL "main",
          OutBranch := strL "out", DryRun := false }
        { sha := strL "abcd1234", message := strL "m" } =
      .error (.collab (strL "api 500")) ∧
    scanRepoCommit { refPR := fun _ => .error (.collab (strL "pr gone")) }
        { UpstreamOrg := strL "uo", UpstreamRepo := strL "ur",
          UpstreamHeadRef := strL "v1", ForkOrg := strL "fo",
          ForkRepo := strL "fr", ForkHeadRef := strL "main",
          OutBranch := strL "out", DryRun := false }
        { sha := strL "abcd1234", message := strL "fixes uo/ur#12" } =
      .error (.collab (strL "pr gone")) ∧
    scan (fun _ => { forkPullsRaw := .error (.collab (strL "net down")) })
        { UpstreamOrg := strL "uo", UpstreamRepo := strL "ur",
          UpstreamHeadRef := strL "v1", ForkOrg := strL "fo",
          ForkRepo := strL "fr", ForkHeadRef := strL "main",
          OutBranch := strL "out", DryRun := false }
        [{ sha := strL "abcd1234", message := strL "m" }] none =
      .error (.collab (strL "net down")) ∧
    scan (fun _ => ({} : ScanEnv))
        { UpstreamOrg := strL "uo", UpstreamRepo := strL "ur",
          UpstreamHeadRef := strL "v1", ForkOrg := strL "fo",
          ForkRepo := strL "fr", ForkHeadRef := strL "main",
          OutBranch := strL "out", DryRun := false }
        [] (some (.collab (strL "listing broke"))) =
      .error (.collab (strL "listing broke")) := by
  refine ⟨scan_aborts_on_collaborator_failures.1 _ _ _ _ rfl,
    scan_aborts_on_collaborator_failures.2.1 _ _ _ _ rfl rfl (by decide) rfl,
    scan_aborts_on_collaborator_failures.2.2.1 _ _ _ _ 12 rfl rfl (by decide)
      (by decide) rfl,
    scan_aborts_on_collaborator_failures.2.2.2.1 _ _ _ _ _ _
      (scan_aborts_on_collaborator_failures.1 _ _ _ _ rfl),
    scan_aborts_on_collaborator_failures.2.2.2.2 _ _ _⟩

/-- The code's ambiguity test agrees with the spec's: some reference differs
from the first exactly when there are at least two references and they are
not all equal. -/
theorem ambiguos_eq_disagree (refs : List Nat) :
    commitRefsAreAmbiguos refs = refsDisagree refs := by
  cases refs with
  | nil => rfl
  | cons r rest =>
    cases rest with
    | nil => simp [commitRefsAreAmbiguos, refsDisagree]
    | cons b bs =>
      rw [Bool.eq_iff_iff]
      simp [commitRefsAreAmbiguos, refsDisagree, List.all_eq_true,
        Nat.succ_le_succ, Nat.le_add_left]

/-- `getComments` never changes the underlying commit of the record. -/
theorem getComments_preserves_commit (c : commitInfo)
    (fetch : Str → Except Err (List Str)) (org repo : Str) :
    (c.getComments fetch org repo).2.1.Commit = c.Commit := by
  unfold commitInfo.getComments
  dsimp only
  by_cases h : c.commentsRepo ≠ org ++ strL "/" ++ repo
  · rw [if_pos h]
    cases fetch (org ++ strL "/" ++ repo) <;> rfl
  · rw [if_neg h]

/-- The pull-request-body leg agrees with the spec-side walk over the
corresponding sources, continuing into `S` when no body yields a match. -/
theorem prBodies_leg_spec (req : Request) (c : commitInfo)
    (S : List RefSource) :
    ∀ prs : List PullRequest,
      resolveRefSpec req c (prs.map .prBody ++ S) =
        match searchRefInPRBodies req.UpstreamOrg req.UpstreamRepo req.ForkOrg
            req.ForkRepo prs with
        | .error e => .error e
        | .ok (some r) => .ok r
        | .ok none => resolveRefSpec req c S := by
  intro prs
  induction prs with
  | nil => simp [searchRefInPRBodies]
  | cons pr rest ih =>
    simp only [List.map_cons, List.cons_append, resolveRefSpec, refSourceText,
      searchRefInPRBodies]
    cases searchPullRequestRefs req.UpstreamOrg req.UpstreamRepo pr.body with
    | error e => rfl
    | ok refs =>
      dsimp only
      rw [← ambiguos_eq_disagree]
      cases refs with
      | nil => simpa [commitRefsAreAmbiguos] using ih
      | cons r rs =>
        by_cases ha : commitRefsAreAmbiguos (r :: rs) = true
        · rw [if_neg (by simp), if_pos ha, if_pos ha]
          rfl
        · rw [if_neg (by simp), if_neg ha, if_neg ha]
          rfl

/-- The review-comment leg agrees with the spec-side walk over the
corresponding sources. -/
theorem comments_leg_spec (req : Request) (c : commitInfo) (sha : Str)
    (hsha : sha = c.SHA) :
    ∀ cs : List Str,
      resolveRefSpec req c (cs.map .comment) =
        match searchRefInComments req.UpstreamOrg req.UpstreamRepo req.ForkOrg
            req.ForkRepo sha cs with
        | .error e => .error e
        | .ok (some r) => .ok r
        | .ok none => .ok 0 := by
  intro cs
  induction cs with
  | nil => simp [searchRefInComments, resolveRefSpec]
  | cons b rest ih =>
    simp only [List.map_cons, resolveRefSpec, refSourceText, searchRefInComments]
    cases searchPullRequestRefs req.UpstreamOrg req.UpstreamRepo b with
    | error e => rfl
    | ok refs =>
      dsimp only
      rw [← ambiguos_eq_disagree]
      cases refs with
      | nil => simpa [commitRefsAreAmbiguos] using ih
      | cons r rs =>
        by_cases ha : commitRefsAreAmbiguos (r :: rs) = true
        · rw [if_neg (by simp), if_pos ha, if_pos ha]
          simp [refSourceErr, hsha]
        · rw [if_neg (by simp), if_neg ha, if_neg ha]
          rfl

/-- C4: reference resolution refines the spec's first-yielding-source rule:
walking the sources in priority order (fork pull-request bodies, the
commit's own message, each review comment), the first source yielding any
reference decides — an ambiguity (two or more matches with differing
numbers) fails with the error naming that source, while matches all carrying
the same number resolve to it; `0` when no source yields anything. -/
theorem searchForkCommitRef_first_source_ambiguity
    (env : ScanEnv) (req : Request) (c : commitInfo) (cs : List Str)
    (hc : (c.getComments env.fetchComments req.ForkOrg req.ForkRepo).1 = .ok cs) :
    (searchForkCommitRef env req c).map Prod.fst =
      resolveRefSpec req c (refSourcesOf req c cs) := by
  unfold refSourcesOf
  rw [show (c.pullRequestsOfRepo req.ForkOrg req.ForkRepo).map RefSource.prBody ++
      [RefSource.commitMsg] ++ cs.map RefSource.comment =
      (c.pullRequestsOfRepo req.ForkOrg req.ForkRepo).map RefSource.prBody ++
      (RefSource.commitMsg :: cs.map RefSource.comment) from by simp]
  rw [prBodies_leg_spec req c (RefSource.commitMsg :: cs.map .comment)
    (c.pullRequestsOfRepo req.ForkOrg req.ForkRepo)]
  unfold searchForkCommitRef
  cases searchRefInPRBodies req.UpstreamOrg req.UpstreamRepo req.ForkOrg
      req.ForkRepo (c.pullRequestsOfRepo req.ForkOrg req.ForkRepo) with
  | error e => rfl
  | ok o =>
    cases o with
    | some r => rfl
    | none =>
      dsimp only
      simp only [resolveRefSpec, refSourceText]
      cases searchPullRequestRefs req.UpstreamOrg req.UpstreamRepo c.Message with
      | error e => rfl
      | ok refs =>
        dsimp only
        rw [← ambiguos_eq_disagree]
        cases refs with
        | nil =>
          rw [if_neg (by decide), if_pos (by decide)]
          rcases hg : c.getComments env.fetchComments req.ForkOrg req.ForkRepo with
            ⟨res, c2, tr⟩
          have hres : res = .ok cs := by rw [hg] at hc; exact hc
          subst hres
          have hsha : c2.SHA = c.SHA := by
            have hcc := getComments_preserves_commit c env.fetchComments
              req.ForkOrg req.ForkRepo
            rw [hg] at hcc
            dsimp only at hcc
            simp only [commitInfo.SHA, hcc]
          dsimp only
          rw [comments_leg_spec req c c2.SHA (by rw [hsha]) cs]
          cases searchRefInComments req.UpstreamOrg req.UpstreamRepo req.ForkOrg
              req.ForkRepo c2.SHA cs with
          | error e => rfl
          | ok o2 => cases o2 <;> rfl
        | cons r rs =>
          by_cases ha : commitRefsAreAmbiguos (r :: rs) = true
          · rw [if_pos ha, if_neg (by simp), if_pos ha]
            rfl
          · rw [if_neg ha, if_neg (by simp), if_neg ha]
            rfl

theorem searchForkCommitRef_first_source_ambiguity_witness :
    (searchForkCommitRef {}
        { UpstreamOrg := strL "uo", UpstreamRepo := strL "ur",
          UpstreamHeadRef := strL "v1", ForkOrg := strL "fo",
          ForkRepo := strL "fr", ForkHeadRef := strL "main",
          OutBranch := strL "out", DryRun := false }
        { Commit := { sha := strL "abcd1234", message := strL "m" },
          PullRequests :=
            [{ baseFullName := strL "fo/fr", number := 41,
               body := strL "ports uo/ur#100 and also uo/ur#200",
               mergedAt := some 1, state := strL "closed" }] }).map Prod.fst =
      resolveRefSpec
        { UpstreamOrg := strL "uo", UpstreamRepo := strL "ur",
          UpstreamHeadRef := strL "v1", ForkOrg := strL "fo",
          ForkRepo := strL "fr", ForkHeadRef := strL "main",
          OutBranch := strL "out", DryRun := false }
        { Commit := { sha := strL "abcd1234", message := strL "m" },
          PullRequests :=
            [{ baseFullName := strL "fo/fr", number := 41,
               body := strL "ports uo/ur#100 and also uo/ur#200",
               mergedAt := some 1, state := strL "closed" }] }
        (refSourcesOf
          { UpstreamOrg := strL "uo", UpstreamRepo := strL "ur",
            UpstreamHeadRef := strL "v1", ForkOrg := strL "fo",
            ForkRepo := strL "fr", ForkHeadRef := strL "main",
            OutBranch := strL "out", DryRun := false }
          { Commit := { sha := strL "abcd1234", message := strL "m" },
            PullRequests :=
              [{ baseFullName := strL "fo/fr", number := 41,
                 body := strL "ports uo/ur#100 and also uo/ur#200",
                 mergedAt := some 1, state := strL "closed" }] } []) ∧
    searchForkCommitRef {}
        { UpstreamOrg := strL "uo", UpstreamRepo := strL "ur",
          UpstreamHeadRef := strL "v1", ForkOrg := strL "fo",
          ForkRepo := strL "fr", ForkHeadRef := strL "main",
          OutBranch := strL "out", DryRun := false }
        { Commit := { sha := strL "abcd1234", message := strL "m" },
          PullRequests :=
            [{ baseFullName := strL "fo/fr", number := 41,
               body := strL "ports uo/ur#100 and also uo/ur#200",
               mergedAt := some 1, state := strL "closed" }] } =
      .error (.ambiguousPRBody (strL "fo") (strL "fr") 41) :=
  ⟨searchForkCommitRef_first_source_ambiguity {}
      { UpstreamOrg := strL "uo", UpstreamRepo := strL "ur",
        UpstreamHeadRef := strL "v1", ForkOrg := strL "fo",
        ForkRepo := strL "fr", ForkHeadRef := strL "main",
        OutBranch := strL "out", DryRun := false }
      { Commit := { sha := strL "abcd1234", message := strL "m" },
        PullRequests :=
          [{ baseFullName := strL "fo/fr", number := 41,
             body := strL "ports uo/ur#100 and also uo/ur#200",
             mergedAt := some 1, state := strL "closed" }] } [] (by decide),
   by decide⟩

/-! ## The reference extractor's ordering (C5)

The extractor scans the text style by style, so its output is grouped by
style rather than by textual position.  The lemmas below characterize the
scanner on texts built from style-1 references `org/repo#digits` separated
by fillers that cannot take part in a style-1 match. -/

/-- `strStarts` holds exactly on initial segments. -/
theorem strStarts_iff (p : Str) : ∀ s : Str,
    strStarts p s = true ↔ ∃ q, s = p ++ q := by
  induction p with
  | nil => intro s; simp [strStarts]
  | cons a p ih =>
    intro s
    cases s with
    | nil => simp [strStarts]
    | cons b s2 =>
      simp only [strStarts, Bool.and_eq_true, decide_eq_true_eq, ih,
        List.cons_append, List.cons.injEq]
      constructor
      · rintro ⟨rfl, q, rfl⟩
        exact ⟨q, rfl, rfl⟩
      · rintro ⟨q, rfl, rfl⟩
        exact ⟨rfl, q, rfl⟩

/-- A string starts with itself as a prefix. -/
theorem strStarts_append (p q : Str) : strStarts p (p ++ q) = true :=
  (strStarts_iff p (p ++ q)).mpr ⟨q, rfl⟩

/-- The fuel of the scanner is irrelevant once it covers the text. -/
theorem findAllSubFuel_congr (pat : List PatPiece) :
    ∀ (f1 : Nat) (s : Str) (f2 : Nat), s.length ≤ f1 → s.length ≤ f2 →
      findAllSubFuel pat f1 s = findAllSubFuel pat f2 s := by
  intro f1
  induction f1 with
  | zero =>
    intro s f2 h1 _
    have hs : s = [] := List.eq_nil_of_length_eq_zero (Nat.le_zero.mp h1)
    subst hs
    cases f2 <;> rfl
  | succ k ih =>
    intro s f2 h1 h2
    cases s with
    | nil => cases f2 <;> rfl
    | cons c rest =>
      cases f2 with
      | zero => simp at h2
      | succ m =>
        simp only [findAllSubFuel]
        cases hm : matchPieces pat (c :: rest) with
        | none =>
          exact ih rest m (by simp at h1; omega) (by simp at h2; omega)
        | some pr =>
          rcases pr with ⟨caps, n⟩
          have hlen : ((c :: rest).drop (max n 1)).length ≤ k := by
            simp only [List.length_drop, List.length_cons]
            simp at h1
            omega
          have hlen2 : ((c :: rest).drop (max n 1)).length ≤ m := by
            simp only [List.length_drop, List.length_cons]
            simp at h2
            omega
          dsimp only
          congr 1
          exact ih ((c :: rest).drop (max n 1)) m hlen hlen2

/-- A failing position is skipped. -/
theorem findAllSub_cons_none (pat : List PatPiece) (c : Char) (rest : Str)
    (hm : matchPieces pat (c :: rest) = none) :
    findAllSub pat (c :: rest) = findAllSub pat rest := by
  simp only [findAllSub, List.length_cons, findAllSubFuel, hm]

/-- A matching position emits its captures and resumes after the match. -/
theorem findAllSub_cons_match (pat : List PatPiece) (s : Str)
    (caps : List Str) (n : Nat) (hs : s ≠ [])
    (hm : matchPieces pat s = some (caps, n)) (hn : 1 ≤ n) :
    findAllSub pat s = caps :: findAllSub pat (s.drop n) := by
  cases s with
  | nil => exact absurd rfl hs
  | cons c rest =>
    simp only [findAllSub, List.length_cons, findAllSubFuel, hm]
    have hmax : max n 1 = n := by omega
    rw [hmax]
    congr 1
    apply findAllSubFuel_congr
    · simp only [List.length_drop, List.length_cons]
      omega
    · exact Nat.le_refl _

/-- A filler none of whose extensions by `rest` matches is skipped whole. -/
theorem findAllSub_skip (pat : List PatPiece) :
    ∀ f rest : Str,
      (∀ t : Str, t ≠ [] → (∃ u, f = u ++ t) →
        matchPieces pat (t ++ rest) = none) →
      findAllSub pat (f ++ rest) = findAllSub pat rest := by
  intro f
  induction f with
  | nil => intro rest _; rfl
  | cons c f2 ih =>
    intro rest h
    have h0 : matchPieces pat ((c :: f2) ++ rest) = none :=
      h (c :: f2) (by simp) ⟨[], rfl⟩
    rw [List.cons_append, findAllSub_cons_none pat c (f2 ++ rest) (by
      simpa using h0)]
    exact ih rest (fun t ht ⟨u, hu⟩ => h t ht ⟨c :: u, by rw [hu]; rfl⟩)

/-- The style-1 literal `org ++ "/" ++ repo ++ "#"`. -/
def refLit (org repo : Str) : Str := org ++ strL "/" ++ repo ++ strL "#"

/-- The hash sign belongs to the style-1 literal. -/
theorem hash_mem_refLit (org repo : Str) : '#' ∈ refLit org repo := by
  simp [refLit, strL]

/-- `takeWhile` over an all-satisfying block followed by a failing head. -/
theorem takeWhile_block (cls : Char → Bool) :
    ∀ d rest : Str, (∀ ch ∈ d, cls ch = true) →
      (∀ ch t, rest = ch :: t → cls ch = false) →
      (d ++ rest).takeWhile cls = d := by
  intro d
  induction d with
  | nil =>
    intro rest _ hr
    cases rest with
    | nil => rfl
    | cons ch t => simp [List.takeWhile, hr ch t rfl]
  | cons ch d2 ih =>
    intro rest hd hr
    simp only [List.cons_append, List.takeWhile, hd ch (by simp)]
    congr 1
    exact ih rest (fun x hx => hd x (by simp [hx])) hr

/-- Matching the style-1 pattern exactly at a reference. -/
theorem matchPieces_refPatDirect (org repo d rest : Str) (hd : d ≠ [])
    (hdig : ∀ ch ∈ d, digitChar ch = true)
    (hrest : ∀ ch t, rest = ch :: t → digitChar ch = false) :
    matchPieces (refPatDirect org repo) (refLit org repo ++ d ++ rest) =
      some ([d], d.length + (refLit org repo).length) := by
  have hassoc : refLit org repo ++ d ++ rest = refLit org repo ++ (d ++ rest) := by
    simp [List.append_assoc]
  rw [hassoc]
  show matchPieces [.lit (refLit org repo), .cap digitChar]
      (refLit org repo ++ (d ++ rest)) = _
  simp only [matchPieces]
  rw [strStarts_append (refLit org repo) (d ++ rest)]
  simp only [if_true, List.drop_left]
  rw [takeWhile_block digitChar d rest hdig hrest]
  rw [if_neg (by simpa using hd)]
  simp

/-- No nonempty proper tail of the style-1 literal can begin the empty
remainder. -/
theorem no_partial_refLit_nil (org repo : Str) :
    ∀ j, 0 < j → j < (refLit org repo).length →
      ¬ ∃ w, ([] : Str) = (refLit org repo).drop j ++ w := by
  rintro j _ hjlt ⟨w, hw⟩
  have hlen := congrArg List.length hw
  simp [List.length_drop] at hlen
  omega

/-- No nonempty proper tail of the style-1 literal can begin a remainder
that itself starts with the full literal (the hash sign appears in the tail
but nowhere in a proper front of the literal). -/
theorem no_partial_refLit_ref (org repo z : Str)
    (hOrg : '#' ∉ org) (hRepo : '#' ∉ repo) :
    ∀ j, 0 < j → j < (refLit org repo).length →
      ¬ ∃ w, refLit org repo ++ z = (refLit org repo).drop j ++ w := by
  rintro j hj hjlt ⟨w, hw⟩
  have hS : refLit org repo = (org ++ strL "/" ++ repo) ++ strL "#" := by
    simp [refLit, List.append_assoc]
  have hAlen : (refLit org repo).length = (org ++ strL "/" ++ repo).length + 1 := by
    rw [hS]
    simp [strL]
    omega
  have hdlen : ((refLit org repo).drop j).length = (refLit org repo).length - j :=
    List.length_drop j _
  have htake : (refLit org repo).drop j =
      (refLit org repo ++ z).take ((refLit org repo).length - j) := by
    rw [hw, List.take_left' hdlen]
  have htake2 : (refLit org repo ++ z).take ((refLit org repo).length - j) =
      (refLit org repo).take ((refLit org repo).length - j) :=
    List.take_append_of_le_length (Nat.sub_le _ _)
  have hmem : '#' ∈ (refLit org repo).drop j := by
    rw [hS, List.drop_append_of_le_length (by omega)]
    simp [strL]
  have hlen2 : ((org ++ strL "/" ++ repo) ++ strL "#").length =
      (org ++ strL "/" ++ repo).length + 1 := by
    simp [strL]
    omega
  have hnot : '#' ∉ (refLit org repo).take ((refLit org repo).length - j) := by
    rw [hS, List.take_append_of_le_length (by omega)]
    intro hmem2
    have hin := List.take_subset _ _ hmem2
    simp [strL] at hin
    rcases hin with h | h
    · exact hOrg h
    · exact hRepo h
  rw [htake, htake2] at hmem
  exact hnot hmem

/-- Inside a hash-free filler, the style-1 pattern cannot match at any
position, whatever hash-free-tail-compatible remainder follows. -/
theorem refPat_no_match_in_filler (org repo : Str)
    (f rest : Str) (hf : '#' ∉ f)
    (hrest : ∀ j, 0 < j → j < (refLit org repo).length →
       ¬ ∃ w, rest = (refLit org repo).drop j ++ w) :
    ∀ t : Str, t ≠ [] → (∃ u, f = u ++ t) →
      matchPieces (refPatDirect org repo) (t ++ rest) = none := by
  rintro t ht ⟨u, hu⟩
  have hsub : ∀ ch ∈ t, ch ∈ f := fun ch hch => by
    rw [hu]
    exact List.mem_append_right u hch
  have hhash_t : '#' ∉ t := fun hch => hf (hsub '#' hch)
  have hns : strStarts (refLit org repo) (t ++ rest) = false := by
    rcases hb : strStarts (refLit org repo) (t ++ rest) with _ | _
    · rfl
    · exfalso
      obtain ⟨w, hw⟩ := (strStarts_iff _ _).mp hb
      rcases List.append_eq_append_iff.mp hw with ⟨a2, ha2, hrw⟩ | ⟨c2, hc2, _⟩
      · cases a2 with
        | nil =>
          rw [List.append_nil] at ha2
          exact hhash_t (ha2 ▸ hash_mem_refLit org repo)
        | cons x xs =>
          refine hrest t.length (List.length_pos.mpr ht) ?_ ⟨w, ?_⟩
          · rw [ha2]
            simp
          · rw [hrw, ha2, List.drop_left]
      · exact hhash_t (hc2 ▸ List.mem_append_left c2 (hash_mem_refLit org repo))
  show matchPieces (.lit (refLit org repo) :: [.cap digitChar]) (t ++ rest) = none
  simp [matchPieces, hns]

/-- A text holding style-1 references `org/repo#d` separated by fillers:
a leading filler, then each reference followed by its filler. -/
def style1Text (org repo : Str) (f0 : Str) : List (Str × Str) → Str
  | [] => f0
  | (d, f) :: items => f0 ++ refLit org repo ++ d ++ style1Text org repo f items

/-- A built text starts with its leading filler. -/
theorem style1Text_starts (org repo f : Str) (items : List (Str × Str)) :
    ∃ z, style1Text org repo f items = f ++ z := by
  cases items with
  | nil => exact ⟨[], by simp [style1Text]⟩
  | cons p rest =>
    rcases p with ⟨d, f2⟩
    exact ⟨refLit org repo ++ d ++ style1Text org repo f2 rest, by simp [style1Text]⟩

/-- The style-1 literal extended by anything is nonempty. -/
theorem refLit_append_ne_nil (org repo : Str) (x : Str) :
    refLit org repo ++ x ≠ [] := by
  intro h
  exact absurd (h ▸ List.mem_append_left x (hash_mem_refLit org repo))
    (List.not_mem_nil '#')

/-- On a built text, the style-1 scanner finds exactly the embedded
references, in order, capturing exactly their digit groups. -/
theorem findAllSub_style1Text (org repo : Str)
    (hOrg : '#' ∉ org) (hRepo : '#' ∉ repo) :
    ∀ (items : List (Str × Str)) (f0 : Str), '#' ∉ f0 →
      (∀ p ∈ items, p.1 ≠ [] ∧ (∀ ch ∈ p.1, digitChar ch = true) ∧
        '#' ∉ p.2 ∧ ∃ ch t, p.2 = ch :: t ∧ digitChar ch = false) →
      findAllSub (refPatDirect org repo) (style1Text org repo f0 items) =
        items.map (fun p => [p.1]) := by
  intro items
  induction items with
  | nil =>
    intro f0 hf0 _
    rw [show style1Text org repo f0 [] = f0 ++ ([] : Str) by simp [style1Text]]
    rw [findAllSub_skip _ f0 []
      (refPat_no_match_in_filler org repo f0 [] hf0 (no_partial_refLit_nil org repo))]
    rfl
  | cons p items ih =>
    rcases p with ⟨d, f⟩
    intro f0 hf0 hall
    obtain ⟨hd, hdig, hfh, ch, t, hft, hchd⟩ := hall (d, f) (by simp)
    dsimp only at hd hdig hfh hft
    have htext : style1Text org repo f0 ((d, f) :: items) =
        f0 ++ (refLit org repo ++ (d ++ style1Text org repo f items)) := by
      simp [style1Text, List.append_assoc]
    rw [htext]
    rw [findAllSub_skip _ f0 _ (refPat_no_match_in_filler org repo f0 _ hf0
      (no_partial_refLit_ref org repo _ hOrg hRepo))]
    have hrest_head : ∀ ch2 t2, style1Text org repo f items = ch2 :: t2 →
        digitChar ch2 = false := by
      intro ch2 t2 heq
      obtain ⟨z, hz⟩ := style1Text_starts org repo f items
      rw [hz, hft] at heq
      simp only [List.cons_append, List.cons.injEq] at heq
      rw [← heq.1]
      exact hchd
    have hm := matchPieces_refPatDirect org repo d (style1Text org repo f items)
      hd hdig hrest_head
    have hm2 : matchPieces (refPatDirect org repo)
        (refLit org repo ++ (d ++ style1Text org repo f items)) =
        some ([d], d.length + (refLit org repo).length) := by
      rw [← List.append_assoc]
      exact hm
    have hdpos : 1 ≤ d.length := List.length_pos.mpr hd
    rw [findAllSub_cons_match _ _ [d] (d.length + (refLit org repo).length)
      (refLit_append_ne_nil org repo _) hm2 (by omega)]
    have hdrop : (refLit org repo ++ (d ++ style1Text org repo f items)).drop
        (d.length + (refLit org repo).length) = style1Text org repo f items := by
      rw [show refLit org repo ++ (d ++ style1Text org repo f items) =
          (refLit org repo ++ d) ++ style1Text org repo f items from
          (List.append_assoc _ _ _).symm]
      rw [show d.length + (refLit org repo).length =
          (refLit org repo ++ d).length by simp [List.length_append]; omega]
      exact List.drop_left _ _
    rw [hdrop]
    rw [ih f hfh (fun q hq => hall q (by simp [hq]))]
    rfl

/-- Converting singleton capture groups to numbers succeeds and yields the
digit values, in order, when every value is within `Atoi` range. -/
theorem refNumsOfMatches_singletons :
    ∀ items : List (Str × Str), (∀ p ∈ items, digitsVal p.1 ≤ goMaxInt) →
      refNumsOfMatches (items.map (fun p => [p.1])) =
        .ok (items.map (fun p => digitsVal p.1)) := by
  intro items
  induction items with
  | nil => intro _; rfl
  | cons p rest ih =>
    intro hall
    simp only [List.map_cons, refNumsOfMatches, goAtoi,
      if_pos (hall p (by simp))]
    rw [ih (fun q hq => hall q (by simp [hq]))]
    rfl

/-- C5 counterexample: in
`github.com/org/repo/pull/5 and org/repo#7` the style-2 reference `5`
appears before the style-1 reference `7`, but the extractor returns
`[7, 5]` — style-1 matches first — not the order of appearance `[5, 7]`. -/
theorem searchPullRequestRefs_style_order_counterexample :
    searchPullRequestRefs (strL "org") (strL "repo")
        (strL "github.com/org/repo/pull/5 and org/repo#7") = .ok [7, 5] ∧
    searchPullRequestRefs (strL "org") (strL "repo")
        (strL "github.com/org/repo/pull/5 and org/repo#7") ≠ .ok [5, 7] := by
  refine ⟨by decide, by decide⟩

/-- C5 amended: on any text made of `k` style-1 references `org/repo#N`
separated by fillers that contain no hash sign and do not start with a
digit (for hash-free org and repo), the extractor returns exactly the `k`
numbers, each correct and in order of appearance — but grouped before
whatever the other two styles match (style-major order), not interleaved by
textual position. -/
theorem searchPullRequestRefs_grouped_by_style
    (org repo : Str) (hOrg : '#' ∉ org) (hRepo : '#' ∉ repo)
    (f0 : Str) (hf0 : '#' ∉ f0) (items : List (Str × Str))
    (hitems : ∀ p ∈ items, p.1 ≠ [] ∧ (∀ ch ∈ p.1, digitChar ch = true) ∧
      digitsVal p.1 ≤ goMaxInt ∧ '#' ∉ p.2 ∧
      ∃ ch t, p.2 = ch :: t ∧ digitChar ch = false)
    (r2 r3 : List Nat)
    (h2 : refNumsOfPat (refPatURL org repo) (style1Text org repo f0 items) = .ok r2)
    (h3 : refNumsOfPat (refPatBracket org) (style1Text org repo f0 items) = .ok r3) :
    searchPullRequestRefs org repo (style1Text org repo f0 items) =
      .ok (items.map (fun p => digitsVal p.1) ++ r2 ++ r3) := by
  have h1 : refNumsOfPat (refPatDirect org repo)
      (style1Text org repo f0 items) = .ok (items.map (fun p => digitsVal p.1)) := by
    unfold refNumsOfPat
    rw [findAllSub_style1Text org repo hOrg hRepo items f0 hf0
      (fun p hp =>
        ⟨(hitems p hp).1, (hitems p hp).2.1, (hitems p hp).2.2.2.1,
         (hitems p hp).2.2.2.2⟩)]
    exact refNumsOfMatches_singletons items (fun p hp => (hitems p hp).2.2.1)
  simp only [searchPullRequestRefs, h1, h2, h3]
  rfl

theorem searchPullRequestRefs_grouped_by_style_witness :
    searchPullRequestRefs (strL "org") (strL "repo")
        (style1Text (strL "org") (strL "repo")
          (strL "see github.com/org/repo/pull/9 then ")
          [(strL "12", strL " mid "), (strL "7", strL " end")]) =
      .ok [12, 7, 9] := by
  have h := searchPullRequestRefs_grouped_by_style (strL "org") (strL "repo")
    (by decide) (by decide)
    (strL "see github.com/org/repo/pull/9 then ") (by decide)
    [(strL "12", strL " mid "), (strL "7", strL " end")]
    (by
      intro p hp
      simp only [List.mem_cons, List.not_mem_nil, or_false] at hp
      rcases hp with rfl | rfl
      · exact ⟨by decide, by decide, by decide, by decide,
          ⟨' ', strL "mid ", by decide, by decide⟩⟩
      · exact ⟨by decide, by decide, by decide, by decide,
          ⟨' ', strL "end", by decide, by decide⟩⟩)
    [9] [] (by decide) (by decide)
  rw [h]
  decide

end Synchro
